import Mathlib

/-!
Verification development for the `acmi-parser` repository (TacView ACMI text
format decoder and trajectory sampler).

The definitions below are a shallow embedding of the TypeScript sources:

* `packages/lib/src/parser.ts` (`AcmiParser`: `_parseHeader`, `_parseContent`,
  `_parseLine`, `_parseBuffer`, `parse`),
* `packages/lib/src/acmiData.ts` (`AcmiData`, `Frame`, `EntityProps`,
  `GlobalProperties`, `TimeSpan`, `getFrame`, `_addFrame`,
  `createSampledTrajectories`),
* `packages/lib/src/trajectory.ts` (`Trajectory._simpleSmooth`),
* `src/acmi/transform.ts` (the slot layout of `T=` coordinate packing, which
  agrees with the parser's inline decoder on the properties studied here).

Modelling conventions:

* JavaScript numbers are modelled as exact rationals plus a `nan` marker
  (`JsNum`).  Scientific notation, hexadecimal float syntax and infinities are
  not modelled by the numeric string decoder; all inputs exercised by the
  theorems use plain decimal literals, as does the ACMI wire format.
* `dayjs` instants are modelled as `Option ℚ` (seconds; `none` is an invalid
  instant, the value of `dayjs(null)`).  ISO-8601 parsing is implemented with
  the standard proleptic-Gregorian day count.
* JavaScript `Map` (insertion ordered) is modelled as an association list with
  in-place update.
* Byte buffers are modelled as `List Char`; all content relevant to the
  theorems is ASCII, where UTF-8 bytes and characters coincide.
* External collaborators (Cesium's geodesy/quaternion routines, the
  `binary-search-bounds` floor search, the geoid grid) are abstracted as
  parameters or modelled from their documented contracts; each such definition
  carries a comment saying so.
-/

set_option allowUnsafeReducibility true in
attribute [semireducible] Rat.add Rat.sub Rat.mul Rat.div Rat.floor Rat.inv

namespace Acmi

/-- A JavaScript double restricted to the values arising here: an exact
rational, or NaN.  `nan` propagates through arithmetic and makes every
ordering comparison false, and `nan !== nan` is true, as in JS. -/
inductive JsNum
  | nan
  | num (q : ℚ)
deriving DecidableEq, Repr

/-- JS `+` on numbers (NaN-propagating). -/
def JsNum.add : JsNum → JsNum → JsNum
  | JsNum.num a, JsNum.num b => JsNum.num (a + b)
  | _, _ => JsNum.nan

/-- JS `!==` on numbers: true when the values differ, and always true when
either side is NaN (`NaN !== NaN` is true). -/
def JsNum.strictNeq : JsNum → JsNum → Bool
  | JsNum.num a, JsNum.num b => decide (a ≠ b)
  | _, _ => true

/-- JS `===` on numbers: NaN is equal to nothing, including itself. -/
def JsNum.strictEq : JsNum → JsNum → Bool
  | JsNum.num a, JsNum.num b => decide (a = b)
  | _, _ => false

/-- JS `<=` on numbers: false whenever either side is NaN. -/
def JsNum.leB : JsNum → JsNum → Bool
  | JsNum.num a, JsNum.num b => decide (a ≤ b)
  | _, _ => false

/-- JS `<` on numbers: false whenever either side is NaN. -/
def JsNum.ltB : JsNum → JsNum → Bool
  | JsNum.num a, JsNum.num b => decide (a < b)
  | _, _ => false

/-- A `dayjs` instant: `none` is an invalid instant (`dayjs(null)`),
`some t` is `t` seconds since the epoch. -/
abbrev Instant := Option ℚ

/-- `dayjs#isValid`. -/
def Instant.isValid : Instant → Bool
  | none => false
  | some _ => true

/-- `dayjs#add(n, "seconds")` with a possibly-NaN JS number of seconds:
adding NaN to a date, or adding to an invalid date, yields an invalid date. -/
def Instant.addNum : Instant → JsNum → Instant
  | some t, JsNum.num q => some (t + q)
  | _, _ => none

/-- `dayjs#add(n, "seconds")` with an exact number of seconds. -/
def Instant.addQ : Instant → ℚ → Instant
  | some t, q => some (t + q)
  | none, _ => none

/-- `dayjs#isSameOrBefore`: false when either instant is invalid. -/
def Instant.isSameOrBefore : Instant → Instant → Bool
  | some a, some b => decide (a ≤ b)
  | _, _ => false

/- ## String utilities (JS string methods over `List Char`) -/

/-- The characters of a string (Lean core strings are `List Char` wrappers). -/
def strL (s : String) : List Char := s.data

/-- Rebuild a string from characters. -/
def ofL (cs : List Char) : String := String.mk cs

/-- JS `String#startsWith`. -/
def sStarts (s p : String) : Bool := p.data.isPrefixOf s.data

/-- JS `String#endsWith`. -/
def sEnds (s p : String) : Bool := p.data.reverse.isPrefixOf s.data.reverse

/-- JS `String#slice(n)` (drop the first `n` characters). -/
def sDrop (s : String) (n : Nat) : String := ofL (s.data.drop n)

/-- JS `String#slice(0, n)` (keep the first `n` characters). -/
def sTake (s : String) (n : Nat) : String := ofL (s.data.take n)

/-- JS `String#slice(0, length - 1)`. -/
def sDropLast (s : String) : String := ofL s.data.dropLast

/-- JS `String#trim` restricted to ASCII whitespace (the inputs studied here
contain no exotic Unicode whitespace). -/
def sTrim (s : String) : String :=
  ofL (((s.data.dropWhile Char.isWhitespace).reverse.dropWhile Char.isWhitespace).reverse)

/-- Split a character list at the first occurrence of `c`; the separator is
consumed.  Models `indexOf` + the two `slice`s around it. -/
def splitAtChar (c : Char) : List Char → Option (List Char × List Char)
  | [] => none
  | x :: xs =>
    if x = c then some ([], xs)
    else match splitAtChar c xs with
      | none => none
      | some (l, r) => some (x :: l, r)

/-- JS `String#split` with a single-character separator. -/
def splitOnCharL (c : Char) : List Char → List (List Char)
  | [] => [[]]
  | x :: xs =>
    match splitOnCharL c xs with
    | [] => if x = c then [[], []] else [[x]]
    | y :: ys => if x = c then [] :: y :: ys else (x :: y) :: ys

/-- JS `String#split` with a single-character separator, on strings. -/
def sSplitOnChar (c : Char) (s : String) : List String :=
  (splitOnCharL c s.data).map ofL

/-- The parser's `_propertySeparator` split: the regex `(?<!\\),` splits at
each comma whose immediately preceding character is not a backslash (a comma
at the start of the string also splits).  `acc` holds the current field
reversed, so its head is the character preceding the cursor. -/
def splitPropsL (acc : List Char) : List Char → List (List Char)
  | [] => [acc.reverse]
  | x :: xs =>
    if x = ',' ∧ acc.head? ≠ some '\\' then
      acc.reverse :: splitPropsL [] xs
    else
      splitPropsL (x :: acc) xs

/-- `line.split(this._propertySeparator)` on strings. -/
def splitProps (s : String) : List String := (splitPropsL [] s.data).map ofL

/-- Models `prop.indexOf("=")` followed by the two slices: the name before the
first `=` and the value after it; `none` when the fragment has no `=`. -/
def splitEq (s : String) : Option (String × String) :=
  match splitAtChar '=' s.data with
  | none => none
  | some (n, v) => some (ofL n, ofL v)

/- ## Numeric string decoding -/

/-- Value of a decimal digit list (most significant first). -/
def digitsVal : List Char → Nat
  | [] => 0
  | c :: cs => (c.toNat - '0'.toNat) * 10 ^ cs.length + digitsVal cs

/-- Value of a hexadecimal digit. -/
def hexVal (c : Char) : Nat :=
  if '0' ≤ c ∧ c ≤ '9' then c.toNat - '0'.toNat
  else if 'a' ≤ c ∧ c ≤ 'f' then c.toNat - 'a'.toNat + 10
  else c.toNat - 'A'.toNat + 10

/-- Is `c` a hexadecimal digit. -/
def isHexDigit (c : Char) : Bool :=
  ('0' ≤ c ∧ c ≤ '9') ∨ ('a' ≤ c ∧ c ≤ 'f') ∨ ('A' ≤ c ∧ c ≤ 'F')

/-- Value of a hexadecimal digit list (most significant first). -/
def hexDigitsVal : List Char → Nat
  | [] => 0
  | c :: cs => hexVal c * 16 ^ cs.length + hexDigitsVal cs

/-- The unsigned decimal-float body of JS `Number(s)`: integer digits, an
optional point, and fraction digits, at least one digit in total. -/
def parseDecBody (cs : List Char) : Option ℚ :=
  let ip := cs.takeWhile Char.isDigit
  let rest := cs.dropWhile Char.isDigit
  match rest with
  | [] => if ip = [] then none else some ((digitsVal ip : ℚ))
  | '.' :: fr =>
    let fp := fr.takeWhile Char.isDigit
    let rest2 := fr.dropWhile Char.isDigit
    if rest2 = [] ∧ ¬(ip = [] ∧ fp = []) then
      some ((digitsVal ip : ℚ) + (digitsVal fp : ℚ) / (10 ^ fp.length : ℚ))
    else none
  | _ => none

/-- JS unary `+` / `Number()` conversion on the decimal forms occurring in
the ACMI format: whitespace is trimmed, the empty string converts to `0`, an
optional sign precedes a decimal literal, anything else (including the
scientific and hexadecimal notations, which never occur here) is NaN. -/
def jsToNumber (s : String) : JsNum :=
  match (sTrim s).data with
  | [] => JsNum.num 0
  | '+' :: cs => match parseDecBody cs with
    | some q => JsNum.num q
    | none => JsNum.nan
  | '-' :: cs => match parseDecBody cs with
    | some q => JsNum.num (-q)
    | none => JsNum.nan
  | cs => match parseDecBody cs with
    | some q => JsNum.num q
    | none => JsNum.nan

/-- JS `parseInt(s, 16)`: skip leading whitespace, take an optional sign and
an optional `0x`/`0X` prefix, then the longest leading run of hex digits;
NaN (`none`) when that run is empty. -/
def parseIntHex (s : String) : Option Int :=
  let cs := s.data.dropWhile Char.isWhitespace
  let (sgn, cs) : Int × List Char :=
    match cs with
    | '-' :: rest => (-1, rest)
    | '+' :: rest => (1, rest)
    | rest => (1, rest)
  let cs := match cs with
    | '0' :: 'x' :: rest => rest
    | '0' :: 'X' :: rest => rest
    | rest => rest
  let ds := cs.takeWhile isHexDigit
  if ds = [] then none else some (sgn * (hexDigitsVal ds : Int))

/- ## ISO-8601 instants (model of the external `dayjs` library) -/

/-- Days from the civil epoch 1970-01-01 for a Gregorian date (the standard
`days_from_civil` computation). -/
def daysFromCivil (y m d : Int) : Int :=
  let y2 : Int := if m ≤ 2 then y - 1 else y
  let era : Int := (if 0 ≤ y2 then y2 else y2 - 399) / 400
  let yoe : Int := y2 - era * 400
  let mp : Int := if 2 < m then m - 3 else m + 9
  let doy : Int := (153 * mp + 2) / 5 + d - 1
  let doe : Int := yoe * 365 + yoe / 4 - yoe / 100 + doy
  era * 146097 + doe - 719468

/-- Read exactly `n` decimal digits. -/
def readDigits (n : Nat) (cs : List Char) : Option (Nat × List Char) :=
  let ds := cs.take n
  if ds.length = n ∧ ds.all Char.isDigit then some (digitsVal ds, cs.drop n)
  else none

/-- Model of the external `dayjs(string)` ISO-8601 parser, restricted to the
`YYYY-MM-DDTHH:MM:SS(.SSS)?(Z)?` shape used by ACMI reference times; any
other shape yields an invalid instant.  The value is UTC seconds since the
epoch. -/
def dayjsParse (s : String) : Instant := do
  let cs := s.data
  let (y, cs) ← readDigits 4 cs
  let cs ← if cs.head? = some '-' then some cs.tail else none
  let (mo, cs) ← readDigits 2 cs
  let cs ← if cs.head? = some '-' then some cs.tail else none
  let (d, cs) ← readDigits 2 cs
  let cs ← if cs.head? = some 'T' then some cs.tail else none
  let (h, cs) ← readDigits 2 cs
  let cs ← if cs.head? = some ':' then some cs.tail else none
  let (mi, cs) ← readDigits 2 cs
  let cs ← if cs.head? = some ':' then some cs.tail else none
  let (sec, cs) ← readDigits 2 cs
  let (frac, cs) ←
    match cs with
    | '.' :: rest =>
      let ds := rest.takeWhile Char.isDigit
      if ds = [] then none
      else some (((digitsVal ds : ℚ) / (10 ^ ds.length : ℚ)), rest.dropWhile Char.isDigit)
    | rest => some ((0 : ℚ), rest)
  match cs with
  | [] => pure ()
  | ['Z'] => pure ()
  | _ => none
  return (daysFromCivil y mo d * 86400 + h * 3600 + mi * 60 + sec : Int) + frac

/- ## Association lists (JS `Map`, insertion ordered) -/

/-- `Map#get`. -/
def aget {κ ν : Type} [DecidableEq κ] : List (κ × ν) → κ → Option ν
  | [], _ => none
  | (k, v) :: rest, key => if k = key then some v else aget rest key

/-- `Map#set`: update in place when the key exists (keeping its position),
otherwise append. -/
def aset {κ ν : Type} [DecidableEq κ] : List (κ × ν) → κ → ν → List (κ × ν)
  | [], key, v => [(key, v)]
  | (k, w) :: rest, key, v =>
    if k = key then (k, v) :: rest else (k, w) :: aset rest key v

/-- `Map#delete`. -/
def adel {κ ν : Type} [DecidableEq κ] (m : List (κ × ν)) (key : κ) : List (κ × ν) :=
  m.filter (fun kv => kv.1 ≠ key)

/- ## Data model (`acmiData.ts`) -/

/-- `AcmiHeader`. -/
structure AcmiHeader where
  fileType : String := ""
  fileVersion : String := ""
deriving DecidableEq, Repr

/-- `TimeSpan` (`start` / `end`; the latter is `endT` here because `end` is a
Lean keyword). -/
structure TimeSpanM where
  start : Instant := none
  endT : Instant := none
deriving DecidableEq, Repr

/-- `TimeSpan#duration()` in seconds (−1 for an invalid span). -/
def TimeSpanM.duration : TimeSpanM → ℚ
  | ⟨some s, some e⟩ => e - s
  | _ => -1

/-- `TimeSpan#isValid()`. -/
def TimeSpanM.isValid (t : TimeSpanM) : Bool :=
  t.start.isValid ∧ t.endT.isValid

/-- `GlobalProperties`.  `recordingTime` conflates the unset and invalid
states (both are unobservable in the claims). -/
structure GlobalProperties where
  referenceTime : Instant := none
  dataSource : Option String := none
  dataRecorder : Option String := none
  recordingTime : Instant := none
  author : Option String := none
  title : Option String := none
  category : Option String := none
  briefing : Option String := none
  debriefing : Option String := none
  comments : Option String := none
  referenceLongitude : Option JsNum := none
  referenceLatitude : Option JsNum := none
  additionalProps : Option (List (String × String)) := none
deriving DecidableEq, Repr

/-- Entity ids are JS numbers used as `Map` keys; `none` is the NaN key
(`parseInt` failure; NaN is a valid JS `Map` key). -/
abbrev EntityId := Option Int

/-- `EntityProps`. -/
structure EntityProps where
  id : EntityId
  timeSpan : TimeSpanM := {}
  name : Option String := none
  types : Option (List String) := none
  callsign : Option String := none
  pilot : Option String := none
  group : Option String := none
  country : Option String := none
  coalition : Option String := none
  color : Option String := none
deriving DecidableEq, Repr

/-- `ITransform`: longitude/latitude/altitude always present (defaulted to 0
on first decode), Euler angles optional (`none` is JS `undefined`; a present
angle may still be NaN). -/
structure ITransform where
  longitude : JsNum
  latitude : JsNum
  altitude : JsNum
  roll : Option JsNum := none
  pitch : Option JsNum := none
  yaw : Option JsNum := none
deriving DecidableEq, Repr

/-- `Scene` (insertion-ordered map id → transform). -/
abbrev Scene := List (EntityId × ITransform)

/-- `Frame`. -/
structure Frame where
  timeStamp : JsNum
  scene : Scene := []
deriving DecidableEq, Repr

/-- `AcmiData` (the parse result; the trajectory-building methods are
separate functions below). -/
structure AcmiData where
  isValid : Bool := true
  header : AcmiHeader := {}
  globalProperties : GlobalProperties := {}
  timeSpan : TimeSpanM := {}
  entities : List (EntityId × EntityProps) := []
  frames : List Frame := []
deriving DecidableEq, Repr

/- ## Record decoder (`parser.ts` `_parseLine`) -/

/-- The mutable fields of `AcmiParser` relevant to a single parse. -/
structure ParserState where
  currentLine : String := ""
  currentTimeStamp : JsNum := JsNum.num 0
  currentFrame : Frame := { timeStamp := JsNum.num 0 }
  destroyedIds : List EntityId := []
  filteredIds : List EntityId := []
  data : AcmiData := {}
  filter : List String := []
  refLat : JsNum := JsNum.num 0
  refLong : JsNum := JsNum.num 0
deriving DecidableEq, Repr

/-- The field update performed by a recognized (or additional) `Name=Value`
pair of a `0,`-row: the global properties together with the parser's active
reference latitude and longitude. -/
def applyGlobalNV (acc : GlobalProperties × JsNum × JsNum) (n v : String) :
    GlobalProperties × JsNum × JsNum :=
  let gp := acc.1
  let rLat := acc.2.1
  let rLong := acc.2.2
  if n = "DataSource" then ({ gp with dataSource := some v }, rLat, rLong)
  else if n = "DataRecorder" then ({ gp with dataRecorder := some v }, rLat, rLong)
  else if n = "ReferenceTime" then ({ gp with referenceTime := dayjsParse v }, rLat, rLong)
  else if n = "RecordingTime" then ({ gp with recordingTime := dayjsParse v }, rLat, rLong)
  else if n = "Author" then ({ gp with author := some v }, rLat, rLong)
  else if n = "Title" then ({ gp with title := some v }, rLat, rLong)
  else if n = "Category" then ({ gp with category := some v }, rLat, rLong)
  else if n = "Briefing" then ({ gp with briefing := some v }, rLat, rLong)
  else if n = "Debriefing" then ({ gp with debriefing := some v }, rLat, rLong)
  else if n = "Comments" then ({ gp with comments := some v }, rLat, rLong)
  else if n = "ReferenceLongitude" then
    ({ gp with referenceLongitude := some (jsToNumber v) }, rLat, jsToNumber v)
  else if n = "ReferenceLatitude" then
    ({ gp with referenceLatitude := some (jsToNumber v) }, jsToNumber v, rLong)
  else
    ({ gp with additionalProps := some (aset (gp.additionalProps.getD []) n v) }, rLat, rLong)

/-- One `Name=Value` fragment of a `0,`-row (`props.forEach` body in the
global branch of `_parseLine`): a fragment without `=` clears the validity
flag, any other fragment applies its field update and leaves validity
untouched. -/
def applyGlobalProp (acc : (GlobalProperties × JsNum × JsNum) × Bool) (prop : String) :
    (GlobalProperties × JsNum × JsNum) × Bool :=
  match splitEq prop with
  | none => (acc.1, false)
  | some nv => (applyGlobalNV acc.1 nv.1 nv.2, acc.2)

/-- The `0,`-row branch of `_parseLine` (after dropping the `0,` prefix). -/
def parseGlobalLine (st : ParserState) (rest : String) : ParserState :=
  let res :=
    (splitProps rest).foldl applyGlobalProp
      ((st.data.globalProperties, st.refLat, st.refLong), st.data.isValid)
  { st with
    data := { st.data with globalProperties := res.1.1, isValid := res.2 }
    refLat := res.1.2.1
    refLong := res.1.2.2
    currentLine := "" }

/-- The `#`-marker branch of `_parseLine`: flush pending destructions from
the current frame's scene, then, when the timestamp changed (`!==`), push the
current frame and start a new one seeded with a clone of its scene. -/
def parseTimeMarker (st : ParserState) (line : String) : ParserState :=
  let scene1 := st.destroyedIds.foldl adel st.currentFrame.scene
  let frame1 := { st.currentFrame with scene := scene1 }
  let newTimeStamp := jsToNumber (sDrop line 1)
  if JsNum.strictNeq newTimeStamp st.currentTimeStamp then
    { st with
      data := { st.data with frames := st.data.frames ++ [frame1] }
      currentTimeStamp := newTimeStamp
      currentFrame := { timeStamp := newTimeStamp, scene := scene1 }
      destroyedIds := []
      currentLine := "" }
  else
    { st with currentFrame := frame1, destroyedIds := [], currentLine := "" }

/-- The `-id` branch of `_parseLine`: close the entity's time span at the
current timestamp, and mark a kept id for destruction at the next marker. -/
def parseRemoval (st : ParserState) (line : String) : ParserState :=
  let id := parseIntHex (sDrop line 1)
  let entities1 :=
    match aget st.data.entities id with
    | some ep =>
      aset st.data.entities id
        { ep with timeSpan :=
            { ep.timeSpan with
                endT := st.data.globalProperties.referenceTime.addNum st.currentTimeStamp } }
    | none => st.data.entities
  let destroyed1 :=
    if st.filteredIds.contains id then st.destroyedIds ++ [id] else st.destroyedIds
  { st with
    data := { st.data with entities := entities1 }
    destroyedIds := destroyed1
    currentLine := "" }

/-- The field update performed by a recognized `Name=Value` pair of an
entity row; unrecognized names are ignored. -/
def applyEntityNV (refTime : Instant) (ts : JsNum) (ep : EntityProps) (n v : String) :
    EntityProps :=
  if n = "Name" then { ep with name := some v }
  else if n = "Type" then { ep with types := some (sSplitOnChar '+' v) }
  else if n = "CallSign" then { ep with callsign := some v }
  else if n = "Pilot" then { ep with pilot := some v }
  else if n = "Group" then { ep with group := some v }
  else if n = "Country" then { ep with country := some v }
  else if n = "Coalition" then { ep with coalition := some v }
  else if n = "Color" then { ep with color := some v }
  else if n = "destroyed" then
    if JsNum.strictEq (jsToNumber v) (JsNum.num 1) then
      { ep with timeSpan := { ep.timeSpan with endT := refTime.addNum ts } }
    else ep
  else ep

/-- One `Name=Value` fragment of an entity row (`props.forEach` body in the
upsert branch): a fragment without `=` clears the validity flag, any other
fragment applies its field update and leaves validity untouched. -/
def applyEntityProp (refTime : Instant) (ts : JsNum) (acc : EntityProps × Bool)
    (prop : String) : EntityProps × Bool :=
  match splitEq prop with
  | none => (acc.1, false)
  | some nv => (applyEntityNV refTime ts acc.1 nv.1 nv.2, acc.2)

/-- The filter decision of the upsert branch (`keep` computation): with a
non-empty filter, keep iff every declared type avoids the filter, or — when
no types were declared — iff `"Untyped"` is not filtered. -/
def filterKeep (filter : List String) (types : Option (List String)) : Bool :=
  if filter.length ≠ 0 then
    match types with
    | some ts => ts.all (fun ty => ¬ filter.contains ty)
    | none => ¬ filter.contains "Untyped"
  else true

/-- The inline `T=` value decoder of the upsert branch (`parser.ts` lines
286–311): the value splits on `|`; with at most 5 slots only slots 0–2
(longitude offset, latitude offset, altitude) are consumed, with 6 or more
slots the decoder additionally consumes slots 3–5 as roll, pitch, yaw in
degrees.  An empty token leaves the component inherited from the prior
transform (or its default).  Note: the source would throw on a 1- or 2-slot
value (`coords[1].length` on `undefined`); such rows never occur in the
format and are modelled as empty tokens here. -/
def decodeTransform (refLong refLat : JsNum) (cur : Option ITransform)
    (coords : List String) : ITransform :=
  let t0 : ITransform :=
    { longitude := (cur.map ITransform.longitude).getD (JsNum.num 0)
      latitude := (cur.map ITransform.latitude).getD (JsNum.num 0)
      altitude := (cur.map ITransform.altitude).getD (JsNum.num 0)
      roll := cur.bind ITransform.roll
      pitch := cur.bind ITransform.pitch
      yaw := cur.bind ITransform.yaw }
  let g := fun (i : Nat) => coords.getD i ""
  let t1 :=
    { t0 with
      longitude := if g 0 = "" then t0.longitude else refLong.add (jsToNumber (g 0))
      latitude := if g 1 = "" then t0.latitude else refLat.add (jsToNumber (g 1))
      altitude := if g 2 = "" then t0.altitude else jsToNumber (g 2) }
  if coords.length ≤ 5 then t1
  else
    { t1 with
      roll := if g 3 = "" then t0.roll else some (jsToNumber (g 3))
      pitch := if g 4 = "" then t0.pitch else some (jsToNumber (g 4))
      yaw := if g 5 = "" then t0.yaw else some (jsToNumber (g 5)) }

/-- The entity-upsert branch of `_parseLine` (a line that is none of the
other record kinds): decode the hex id, fold the `Name=Value` fragments over
the (possibly fresh) `EntityProps`, apply the filter decision for new
entities, and — when the id is kept — decode a `T=` fragment into the current
frame's scene. -/
def parseUpsert (st : ParserState) (line : String) : ParserState :=
  match splitAtChar ',' line.data with
  | none => { st with data := { st.data with isValid := false }, currentLine := "" }
  | some (idCs, restCs) =>
    let id := parseIntHex (ofL idCs)
    let existing := aget st.data.entities id
    let newEntity : Bool := existing.isNone
    let ep0 : EntityProps :=
      existing.getD
        { id := id
          timeSpan :=
            { start := st.data.globalProperties.referenceTime.addNum st.currentTimeStamp } }
    let props := splitProps (ofL restCs)
    let res :=
      props.foldl (applyEntityProp st.data.globalProperties.referenceTime st.currentTimeStamp)
        (ep0, st.data.isValid)
    let ep1 := res.1
    let keep := filterKeep st.filter ep1.types
    let entities1 :=
      if newEntity then
        if keep then aset st.data.entities id ep1 else st.data.entities
      else aset st.data.entities id ep1
    let filtered1 :=
      if newEntity ∧ keep then st.filteredIds ++ [id] else st.filteredIds
    let frame1 :=
      if filtered1.contains id then
        match props.find? (fun p => sStarts p "T=") with
        | some p =>
          match splitEq p with
          | some (_, v) =>
            { st.currentFrame with
              scene := aset st.currentFrame.scene id
                (decodeTransform st.refLong st.refLat (aget st.currentFrame.scene id)
                  (sSplitOnChar '|' v)) }
          | none => st.currentFrame
        | none => st.currentFrame
      else st.currentFrame
    { st with
      data := { st.data with entities := entities1, isValid := res.2 }
      filteredIds := filtered1
      currentFrame := frame1
      currentLine := "" }

/-- `_parseLine`'s dispatch on the logical line `line`. -/
def parseLineOn (st : ParserState) (line : String) : ParserState :=
  if sStarts line "0,Event" then { st with currentLine := "" }
  else if sStarts line "0," then parseGlobalLine st (sDrop line 2)
  else if sStarts line "#" then parseTimeMarker st line
  else if sStarts line "-" then parseRemoval st line
  else parseUpsert st line

/-- `_parseLine` (reads the accumulated logical line from the state). -/
def parseLine (st : ParserState) : ParserState := parseLineOn st st.currentLine

/- ## Line scanner (`_parseContent`'s byte walk) -/

/-- The physical-line scan of `_parseContent`: emit a line at each LF; when a
CR was seen since the line started (the `previousCR` flag, which is only
cleared by an LF), additionally drop the character just before the LF.  The
accumulator holds the pending characters reversed; bytes after the final LF
are never emitted. -/
def physicalLinesAux (acc : List Char) (prevCR : Bool) : List Char → List (List Char)
  | [] => []
  | c :: rest =>
    if c = '\r' then physicalLinesAux (c :: acc) true rest
    else if c = '\n' then
      (if prevCR then acc.reverse.dropLast else acc.reverse) ::
        physicalLinesAux [] false rest
    else physicalLinesAux (c :: acc) prevCR rest

/-- The physical lines reaching the dispatch (`index > 1` skips the two
header lines). -/
def physicalLines (buf : List Char) : List String :=
  ((physicalLinesAux [] false buf).drop 2).map ofL

/-- The per-physical-line dispatch of `_parseContent`: skip blank and `//`
lines, accumulate a continuation line (minus its trailing backslash, plus a
newline), otherwise complete the logical line and decode it. -/
def dispatchPhysical (st : ParserState) (l : String) : ParserState :=
  if sTrim l ≠ "" ∧ ¬ sStarts l "//" then
    if sEnds l "\\" then
      { st with currentLine := st.currentLine ++ sDropLast l ++ "\n" }
    else
      parseLine { st with currentLine := st.currentLine ++ l }
  else st

/-- The content walk of `_parseContent` (scan interleaved with dispatch; the
scan itself does not depend on parser state, so it is factored out). -/
def parseContentCore (st : ParserState) (buf : List Char) : ParserState :=
  (physicalLines buf).foldl dispatchPhysical st

/-- The logical-line assembly implicit in the dispatch: given the pending
accumulation, return the completed logical lines and the final pending
string. -/
def assembleAux (pend : String) : List String → List String × String
  | [] => ([], pend)
  | l :: rest =>
    if sTrim l ≠ "" ∧ ¬ sStarts l "//" then
      if sEnds l "\\" then assembleAux (pend ++ sDropLast l ++ "\n") rest
      else
        let (ls, p) := assembleAux "" rest
        ((pend ++ l) :: ls, p)
    else assembleAux pend rest

/-- The logical lines decoded from a buffer. -/
def logicalLines (buf : List Char) : List String :=
  (assembleAux "" (physicalLines buf)).1

/-- Run `_parseLine` on an explicit logical line. -/
def runLine (st : ParserState) (l : String) : ParserState := parseLineOn st l

/- ## Header and finalization (`_parseHeader`, tail of `_parseContent`,
`_parseBuffer`) -/

/-- Strip an optional BOM (the `﻿?` of the header pattern). -/
def stripBOM : List Char → List Char
  | '﻿' :: rest => rest
  | cs => cs

/-- Strip a literal prefix, or fail. -/
def stripPfx (p : String) (cs : List Char) : Option (List Char) :=
  if p.data.isPrefixOf cs then some (cs.drop p.data.length) else none

/-- The header regex
`^﻿?FileType=(?<type>.*)\r?\nFileVersion=(?<version>.*)\r?\n` applied to
a decoded prefix.  Since `.*` is greedy and `.` matches `\r`, each captured
group runs to the character just before the next LF and retains any CR (so a
CRLF-terminated header captures a type ending in `\r`, which then fails the
type check, exactly as in the source). -/
def headerMatch (cs : List Char) : Option (String × String) := do
  let cs := stripBOM cs
  let cs ← stripPfx "FileType=" cs
  let (ty, cs) ← splitAtChar '\n' cs
  let cs ← stripPfx "FileVersion=" cs
  let (ver, _) ← splitAtChar '\n' cs
  return (ofL ty, ofL ver)

/-- The accepted file type. -/
def acmiType : String := "text/acmi/tacview"

/-- The accepted file versions. -/
def acmiVersions : List String := ["2.1", "2.2"]

/-- `_parseHeader`: decode the first 64 bytes, run the header pattern, and on
a match record the groups and set `isValid` from the type/version check;
without a match the data is left untouched. -/
def parseHeaderStep (st : ParserState) (buf : List Char) : ParserState :=
  match headerMatch (buf.take 64) with
  | some (ty, ver) =>
    { st with data :=
        { st.data with
          header := { fileType := ty, fileVersion := ver }
          isValid := decide (ty = acmiType) && acmiVersions.contains ver } }
  | none => st

/-- The tail of `_parseContent`: when at least one frame was pushed, push the
in-flight frame, then either derive the data's time span from the first
non-empty and the last frame, or clear the validity flag. -/
def finalizeContent (st : ParserState) : ParserState :=
  if st.data.frames.length ≠ 0 then
    let frames1 := st.data.frames ++ [st.currentFrame]
    let rt := st.data.globalProperties.referenceTime
    match frames1.find? (fun f => f.scene.length ≠ 0), frames1.getLast? with
    | some ff, some lf =>
      if rt.isValid then
        { st with data :=
            { st.data with
              frames := frames1
              timeSpan := { start := rt.addNum ff.timeStamp, endT := rt.addNum lf.timeStamp } } }
      else
        { st with data := { st.data with frames := frames1, isValid := false } }
    | _, _ =>
      { st with data := { st.data with frames := frames1, isValid := false } }
  else st

/-- The entity finalization of `_parseBuffer`: any entity whose time span has
no valid end inherits the data's span end. -/
def finalizeEntities (d : AcmiData) : AcmiData :=
  { d with entities :=
      d.entities.map (fun kv =>
        if ¬ kv.2.timeSpan.endT.isValid then
          (kv.1, { kv.2 with timeSpan := { kv.2.timeSpan with endT := d.timeSpan.endT } })
        else kv) }

/-- `_parseBuffer` on an explicit initial state. -/
def parseBufferFrom (st : ParserState) (buf : List Char) : AcmiData :=
  finalizeEntities (finalizeContent (parseContentCore (parseHeaderStep st buf) buf)).data

/-- `parse(data, {filter})` on an uncompressed buffer: reset the scratch
state and run `_parseBuffer`.  (The `PK` container path delegates to the
external `unzipit` collaborator and is outside this model.) -/
def parseAcmi (filter : List String) (buf : List Char) : AcmiData :=
  parseBufferFrom { filter := filter } buf

/- ## Trajectory sampling (`acmiData.ts` `getFrame`, `_addFrame`,
`createSampledTrajectories`; `trajectory.ts` `Trajectory`) -/

/-- A Cartesian position (`Cartesian3`), with exact components. -/
structure Vec3 where
  x : ℚ
  y : ℚ
  z : ℚ
deriving DecidableEq, Repr

/-- A quaternion (`Quaternion`), with exact components. -/
structure Quat where
  qx : ℚ
  qy : ℚ
  qz : ℚ
  qw : ℚ
deriving DecidableEq, Repr

/-- `ITrajectorySample` (`time`, `state.position`, `state.orientation`). -/
structure TrajectorySample where
  time : Instant
  position : Vec3
  orientation : Option Quat
deriving DecidableEq, Repr

/-- `Trajectory` (its sample list; the orientation-emulation scratch state is
irrelevant to sampling). -/
structure Trajectory where
  samples : List TrajectorySample := []
deriving DecidableEq, Repr

/-- `Trajectories` (insertion-ordered map id → trajectory). -/
abbrev Trajectories := List (EntityId × Trajectory)

/-- `Trajectory#hasOrientations`: whether the first sample (if any) carries
an orientation. -/
def hasOrientations (t : Trajectory) : Bool :=
  match t.samples with
  | [] => false
  | s :: _ => s.orientation.isSome

/-- `ITrajectoryOptions` with the source defaults. -/
structure TrajOptions where
  sampleRate : ℚ := 1
  fixMslHeight : Bool := false
  emulateOrientation : Bool := false

/-- The external geodesy collaborators of `_addFrame` and of the
post-processing passes, abstracted: `fromDegrees` models Cesium's
`Cartesian3.fromDegrees` (WGS84 ECEF construction), `hprQuaternion` models
`Transforms.headingPitchRollQuaternion` after the degree→radian conversion,
`fixMsl` and `emulate` model `Trajectory#fixMslHeight` and
`Trajectory#emulateOrientations`, whose bodies are dominated by external
Cesium spline and rotation arithmetic.  None of the sampling-time properties
below depend on their values. -/
structure Geo where
  fromDegrees : JsNum → JsNum → JsNum → Vec3
  hprQuaternion : Vec3 → JsNum → JsNum → JsNum → Quat
  fixMsl : Trajectory → Trajectory
  emulate : Trajectory → Trajectory

/-- `CMath.EPSILON6`. -/
def eps6 : ℚ := 1 / 1000000

/-- Absolute value written out (so that concrete instances evaluate by
definitional reduction). -/
def ratAbs (q : ℚ) : ℚ := if q < 0 then -q else q

/-- Modelled from the spec: Cesium `Cartesian3.equalsEpsilon` with
`ε = EPSILON6` — the positions agree when every component differs by at most
ε (the documented dedup contract: "position differs from previous by less
than ε_pos := 1e-6 in both x, y, z components"). -/
def cartEqEps (a b : Vec3) : Bool :=
  ratAbs (a.x - b.x) ≤ eps6 ∧ ratAbs (a.y - b.y) ≤ eps6 ∧ ratAbs (a.z - b.z) ≤ eps6

/-- Modelled from the spec: Cesium `Quaternion.equalsEpsilon` on possibly
absent quaternions — two absent orientations are equal (JS
`undefined === undefined` short-circuits the comparison), an absent and a
present one are not, and two present ones compare componentwise. -/
def quatEqEps (a b : Option Quat) : Bool :=
  match a, b with
  | none, none => true
  | some p, some q =>
    ratAbs (p.qx - q.qx) ≤ eps6 ∧ ratAbs (p.qy - q.qy) ≤ eps6 ∧
      ratAbs (p.qz - q.qz) ≤ eps6 ∧ ratAbs (p.qw - q.qw) ≤ eps6
  | _, _ => false

/-- Modelled from the spec: the external `binary-search-bounds` `le` search
used by `getFrame` — the frame at the largest index whose `timeStamp` is at
most the target (`undefined` when no index qualifies; on the sorted frame
lists produced by the parser this is exactly the binary search's result). -/
def frameFloor (frames : List Frame) (target : ℚ) : Option Frame :=
  frames.foldl
    (fun best f => if JsNum.leB f.timeStamp (JsNum.num target) then some f else best) none

/-- `AcmiData#getFrame(time)`: defined only inside the span, measured from
the reference time. -/
def getFrame (d : AcmiData) (time : Instant) : Option Frame :=
  if d.timeSpan.isValid then
    let start := d.globalProperties.referenceTime
    if start.isSameOrBefore time ∧ time.isSameOrBefore d.timeSpan.endT then
      match start, time with
      | some s, some tm => frameFloor d.frames (tm - s)
      | _, _ => none
    else none
  else none

/-- The per-entity body of `AcmiData#_addFrame` for one scene entry:
register a fresh trajectory if needed, build the position (and, when the
transform has a yaw, the orientation) via the external collaborators, skip
the sample when it is ε-equal to the previous one (never skipped for the
final frame), otherwise append it. -/
def addSample (geo : Geo) (time : Instant) (lastFrame : Bool) (trajs : Trajectories)
    (entry : EntityId × ITransform) : Trajectories :=
  let (id, transform) := entry
  let (trajs1, samples) :=
    match aget trajs id with
    | some t => (trajs, t.samples)
    | none => (aset trajs id { samples := [] }, ([] : List TrajectorySample))
  let position := geo.fromDegrees transform.longitude transform.latitude transform.altitude
  let orientation :=
    match transform.yaw with
    | some yawv =>
      some (geo.hprQuaternion position yawv (transform.pitch.getD (JsNum.num 0))
        (transform.roll.getD (JsNum.num 0)))
    | none => none
  let skip : Bool :=
    !lastFrame &&
      match samples.getLast? with
      | some lastS => cartEqEps lastS.position position && quatEqEps lastS.orientation orientation
      | none => false
  if skip then trajs1
  else aset trajs1 id { samples := samples ++ [⟨time, position, orientation⟩] }

/-- `AcmiData#_addFrame`. -/
def addFrame (geo : Geo) (trajs : Trajectories) (time : Instant) (frame : Frame)
    (lastFrame : Bool) : Trajectories :=
  frame.scene.foldl (addSample geo time lastFrame) trajs

/-- `AcmiData#createSampledTrajectories`.  The source's `do … while
(timeStamp <= duration)` loop runs its body at `timeStamp = k·sampleRate`
for `k = 0, …, ⌊duration/sampleRate⌋` and leaves `timeStamp` one step past
the last value, so the post-loop `timeStamp > duration` guard is written out
verbatim on that value.  A non-positive sample rate makes the source loop
diverge; it is modelled as the empty result and never instantiated. -/
def createSampledTrajectories (geo : Geo) (d : AcmiData) (opts : TrajOptions) :
    Trajectories :=
  let trajs : Trajectories :=
    if d.timeSpan.isValid then
      if 0 < opts.sampleRate then
        let dur := d.timeSpan.duration
        let n : Nat := (Rat.floor (dur / opts.sampleRate)).toNat
        let looped :=
          (List.range (n + 1)).foldl
            (fun acc k =>
              let time := d.timeSpan.start.addQ (k * opts.sampleRate)
              match getFrame d time with
              | some fr => addFrame geo acc time fr false
              | none => acc)
            []
        if dur < (n + 1 : ℚ) * opts.sampleRate then
          match getFrame d d.timeSpan.endT with
          | some fr => addFrame geo looped d.timeSpan.endT fr true
          | none => looped
        else looped
      else []
    else []
  let trajs2 := if opts.fixMslHeight then trajs.map (fun kv => (kv.1, geo.fixMsl kv.2)) else trajs
  if opts.emulateOrientation then
    trajs2.map (fun kv => (kv.1, if ¬ hasOrientations kv.2 then geo.emulate kv.2 else kv.2))
  else trajs2

/- ## Roll smoothing (`trajectory.ts` `Trajectory#_simpleSmooth`) -/

/-- `Trajectory#_simpleSmooth(value, alpha)` operating on the stored
`_lastRoll`: blend, force to zero every blended value below the threshold
(the source compares `value < 2 * CMath.RADIANS_PER_DEGREE` with no absolute
value; the threshold — an external double constant, `2·π/180 ≈ 0.0349` in
`packages/lib`, `toRadians(1) ≈ 0.0175` in the older tree — is kept as a
parameter).  The single result is both stored as the new `_lastRoll` and
returned (the source stores and returns the same local variable). -/
def simpleSmooth (threshold : ℚ) (alpha lastRoll value : ℚ) : ℚ :=
  if alpha * value + (1 - alpha) * lastRoll < threshold then 0
  else alpha * value + (1 - alpha) * lastRoll

/-- The smoothing step as the specification words it ("`smooth :=
alpha·raw + (1-alpha)·lastRoll`; if `|smooth| < 1°` force to 0; store smooth
as `lastRoll`; return smooth"): the zero-forcing tests the magnitude against
one degree (`π/180`, kept as a parameter). -/
def specSmooth (oneDegree : ℚ) (alpha lastRoll value : ℚ) : ℚ :=
  if |alpha * value + (1 - alpha) * lastRoll| < oneDegree then 0
  else alpha * value + (1 - alpha) * lastRoll

/- ## Auxiliary predicates and concrete instances used by the theorems -/

/-- Strict order on instants (false when either is invalid), used to state
strict sample-time increase. -/
def instantLtB : Instant → Instant → Bool
  | some a, some b => decide (a < b)
  | _, _ => false

/-- The numeric values carried by the `#`-marker lines of a logical-line
stream (in order). -/
def markerVals (ls : List String) : List JsNum :=
  ls.filterMap (fun l => if sStarts l "#" then some (jsToNumber (sDrop l 1)) else none)

/-- Strict frame ordering by timestamp. -/
def frameLt (f g : Frame) : Bool := JsNum.ltB f.timeStamp g.timeStamp

/-- Adjacent-pair chain check (a boolean `List.Chain'`, kept executable so
that concrete instances evaluate). -/
def chainB {α : Type} (r : α → α → Bool) : List α → Bool
  | [] => true
  | [_] => true
  | a :: b :: rest => r a b && chainB r (b :: rest)

/-- A concrete instantiation of the external geodesy collaborators, used to
evaluate the sampler on concrete data: positions keep their geodetic
components (any map that separates the transforms appearing in the concrete
data by more than ε, as the true WGS84 ECEF map does, yields the same
sampling decisions), orientations are constant, post-passes are identities. -/
def sampleGeo : Geo where
  fromDegrees := fun lo la al =>
    match lo, la, al with
    | JsNum.num a, JsNum.num b, JsNum.num c => ⟨a, b, c⟩
    | _, _, _ => ⟨0, 0, 0⟩
  hprQuaternion := fun _ _ _ _ => ⟨0, 0, 0, 1⟩
  fixMsl := id
  emulate := id

/-- A stationary transform for the sampling scenario. -/
def transformA : ITransform :=
  { longitude := JsNum.num 0, latitude := JsNum.num 0, altitude := JsNum.num 0 }

/-- A displaced transform for the sampling scenario. -/
def transformB : ITransform :=
  { longitude := JsNum.num 1, latitude := JsNum.num 1, altitude := JsNum.num 1000 }

/-- Concrete parsed data for the sampling scenario: a two-second span whose
duration is an exact multiple of the default 1 s sample rate, with one
entity present in both frames and moving at the end. -/
def dataC4 : AcmiData :=
  { globalProperties := { referenceTime := some 1000 }
    timeSpan := { start := some 1000, endT := some 1002 }
    frames := [ { timeStamp := JsNum.num 0, scene := [(some 1, transformA)] },
                { timeStamp := JsNum.num 2, scene := [(some 1, transformB)] } ] }

/-- A buffer with no ACMI header at all, whose third line is a global
property row. -/
def bufNoHeader : List Char := ("X\nY\n0,Author=me\n").data

/-- A buffer whose header matches the pattern but carries an unsupported
version. -/
def bufBadVersion : List Char :=
  ("FileType=text/acmi/tacview\nFileVersion=9.9\n0,Author=me\n").data

/-- A well-formed buffer exercising entity removal: the entity is upserted at
`#2`, removed, and a `#3` marker follows. -/
def bufRemoval : List Char :=
  ("FileType=text/acmi/tacview\nFileVersion=2.2\n" ++
   "0,ReferenceTime=1970-01-01T00:00:10Z\n#2\na,T=1|2|3,Name=x\n-a\n#3\n").data

/-- A buffer whose first upsert of entity `a` is filtered out by type and
whose second upsert of the same id carries no `Type=` field. -/
def bufRefilter : List Char :=
  ("FileType=text/acmi/tacview\nFileVersion=2.2\na,Type=Air\na,Name=x\n").data

/-- A valid header with no content (in particular no time markers). -/
def bufNoMarkers : List Char := ("FileType=text/acmi/tacview\nFileVersion=2.2\n").data

/-- A buffer whose time markers rewind (`#5` then `#3`). -/
def bufRewind : List Char :=
  ("FileType=text/acmi/tacview\nFileVersion=2.2\n#5\n#3\n").data

/-- A well-formed minimal recording (header, reference time, two frames with
a moving entity), used as a witness input. -/
def bufMinimal : List Char :=
  ("FileType=text/acmi/tacview\nFileVersion=2.2\n" ++
   "0,ReferenceTime=1970-01-01T00:00:10Z\n#0\na,T=1|2|3,Name=x\n#1\na,T=1.5|2|100\n").data

/-- The content of `bufMinimal` before a trailing unterminated fragment is
appended (used as the witness input for the final-line drop property). -/
def bufTruncBase : List Char :=
  ("FileType=text/acmi/tacview\nFileVersion=2.2\n0,Author=a").data

/-- A trailing fragment with no line feed. -/
def bufTruncTail : List Char := ("0,Author=b").data

/-- A concrete parser state with a kept entity, for the removal-ordering witness. -/
def stC2 : ParserState :=
  { currentTimeStamp := JsNum.num 2
    currentFrame := { timeStamp := JsNum.num 2, scene := [(some 10, transformA)] }
    filteredIds := [some 10]
    data := { globalProperties := { referenceTime := some 100 }
              entities := [(some 10, { id := some 10 })] } }

/-- A parser state carrying a type filter, for the filter-decision witness. -/
def stC5 : ParserState := { filter := ["Air"] }

/- ## Helper lemmas -/

/-- `chainB` agrees with `List.Chain'`. -/
theorem chainB_iff {α : Type} (r : α → α → Bool) (l : List α) :
    chainB r l = true ↔ List.Chain' (fun a b => r a b = true) l := by
  induction l with
  | nil => simp [chainB]
  | cons a rest ih =>
    cases rest with
    | nil => simp [chainB]
    | cons b rest2 =>
      rw [List.chain'_cons]
      unfold chainB
      rw [Bool.and_eq_true, ih]

/-- Validity is never restored by a `0,`-row fold once cleared. -/
theorem globalFold_valid_mono (props : List String) :
    ∀ acc : (GlobalProperties × JsNum × JsNum) × Bool, acc.2 = false →
      (props.foldl applyGlobalProp acc).2 = false := by
  induction props with
  | nil => intro acc h; exact h
  | cons p rest ih =>
    intro acc h
    apply ih
    unfold applyGlobalProp
    cases hsp : splitEq p <;> simp [h]

/-- Validity is never restored by an entity-row fold once cleared. -/
theorem entityFold_valid_mono (rt : Instant) (ts : JsNum) (props : List String) :
    ∀ acc : EntityProps × Bool, acc.2 = false →
      (props.foldl (applyEntityProp rt ts) acc).2 = false := by
  induction props with
  | nil => intro acc h; exact h
  | cons p rest ih =>
    intro acc h
    apply ih
    unfold applyEntityProp
    cases hsp : splitEq p <;> simp [h]

/-- The record decoder never sets `isValid` back to true. -/
theorem parseLineOn_valid_mono (st : ParserState) (l : String)
    (h : st.data.isValid = false) : (parseLineOn st l).data.isValid = false := by
  unfold parseLineOn
  split_ifs with h1 h2 h3 h4
  · exact h
  · exact globalFold_valid_mono _ _ h
  · unfold parseTimeMarker
    dsimp only
    split <;> exact h
  · exact h
  · unfold parseUpsert
    cases hsp : splitAtChar ',' l.data with
    | none => rfl
    | some pr => exact entityFold_valid_mono _ _ _ _ h

/-- The per-physical-line dispatch never sets `isValid` back to true. -/
theorem dispatch_valid_mono (st : ParserState) (l : String)
    (h : st.data.isValid = false) : (dispatchPhysical st l).data.isValid = false := by
  unfold dispatchPhysical
  split_ifs with h1 h2
  · exact h
  · exact parseLineOn_valid_mono _ _ h
  · exact h

/-- The content walk never sets `isValid` back to true. -/
theorem core_valid_mono (ls : List String) :
    ∀ st : ParserState, st.data.isValid = false →
      (ls.foldl dispatchPhysical st).data.isValid = false := by
  induction ls with
  | nil => intro st h; exact h
  | cons l rest ih => intro st h; exact ih _ (dispatch_valid_mono _ _ h)

/-- The content finalization never sets `isValid` back to true. -/
theorem finalizeContent_valid_mono (st : ParserState)
    (h : st.data.isValid = false) : (finalizeContent st).data.isValid = false := by
  unfold finalizeContent
  split
  · dsimp only
    split
    · split
      · exact h
      · rfl
    · rfl
  · exact h

/-- The structure of the time-span/validity finalization at the end of
`_parseContent`, for any parser state.  -/
theorem finalizeContent_spec (st : ParserState) :
    (∀ r ff lf, (finalizeContent st).data.globalProperties.referenceTime = some r →
        (finalizeContent st).data.frames.find? (fun f => f.scene.length ≠ 0) = some ff →
        (finalizeContent st).data.frames.getLast? = some lf →
        (finalizeContent st).data.timeSpan.start = Instant.addNum (some r) ff.timeStamp ∧
        (finalizeContent st).data.timeSpan.endT = Instant.addNum (some r) lf.timeStamp) ∧
    ((finalizeContent st).data.frames ≠ [] →
      ((finalizeContent st).data.globalProperties.referenceTime = none ∨
        (finalizeContent st).data.frames.find? (fun f => f.scene.length ≠ 0) = none) →
      (finalizeContent st).data.isValid = false) := by
  unfold finalizeContent
  split
  case isTrue hlen =>
    dsimp only
    cases hfind : List.find? (fun f => decide (f.scene.length ≠ 0))
        (st.data.frames ++ [st.currentFrame]) with
    | none =>
      constructor
      · intro r ff lf h1 h2 h3
        rw [hfind] at h2
        exact absurd h2 (by simp)
      · intro h1 h2
        rfl
    | some ff0 =>
      cases hlast : (st.data.frames ++ [st.currentFrame]).getLast? with
      | none =>
        constructor
        · intro r ff lf h1 h2 h3
          rw [hlast] at h3
          exact absurd h3 (by simp)
        · intro h1 h2
          rfl
      | some lf0 =>
        dsimp only
        by_cases hrt : (st.data.globalProperties.referenceTime).isValid = true
        · rw [if_pos hrt]
          constructor
          · intro r ff lf h1 h2 h3
            rw [hfind] at h2
            rw [hlast] at h3
            obtain rfl : ff0 = ff := by simpa using h2
            obtain rfl : lf0 = lf := by simpa using h3
            rw [h1]
            exact ⟨rfl, rfl⟩
          · intro h1 h2
            rcases h2 with h2 | h2
            · rw [h2] at hrt
              exact absurd hrt (by simp [Instant.isValid])
            · rw [hfind] at h2
              exact absurd h2 (by simp)
        · rw [if_neg hrt]
          constructor
          · intro r ff lf h1 h2 h3
            rw [h1] at hrt
            exact absurd rfl hrt
          · intro h1 h2
            rfl
  case isFalse hlen =>
    have hnil : st.data.frames = [] := List.length_eq_zero.mp (not_ne_iff.mp hlen)
    constructor
    · intro r ff lf h1 h2 h3
      rw [hnil] at h2
      exact absurd h2 (by simp)
    · intro h1 h2
      exact absurd hnil h1

/-- Updating a key makes it retrievable. -/
theorem aget_aset_self {κ ν : Type} [DecidableEq κ] (m : List (κ × ν)) (k : κ) (v : ν) :
    aget (aset m k v) k = some v := by
  induction m with
  | nil => simp [aset, aget]
  | cons kv rest ih =>
    obtain ⟨k1, w⟩ := kv
    by_cases h : k1 = k
    · simp [aset, aget, h]
    · simp [aset, aget, h, ih]

/-- Deleting a key removes it. -/
theorem aget_adel_self {κ ν : Type} [DecidableEq κ] (m : List (κ × ν)) (k : κ) :
    aget (adel m k) k = none := by
  induction m with
  | nil => simp [adel, aget]
  | cons kv rest ih =>
    obtain ⟨k1, w⟩ := kv
    by_cases h : k1 = k
    · simpa [adel, aget, h] using ih
    · simpa [adel, aget, h] using ih

/-- Deletion preserves absence. -/
theorem aget_adel_none {κ ν : Type} [DecidableEq κ] (m : List (κ × ν)) (k j : κ)
    (h : aget m k = none) : aget (adel m j) k = none := by
  induction m with
  | nil => simp [adel, aget]
  | cons kv rest ih =>
    obtain ⟨k1, w⟩ := kv
    by_cases h1 : k1 = k
    · simp [aget, h1] at h
    · have hrec := ih (by simpa [aget, h1] using h)
      by_cases h2 : k1 = j
      · simpa [adel, List.filter_cons, h2] using hrec
      · simpa [adel, List.filter_cons, h2, aget, h1] using hrec

/-- Folded deletion preserves absence. -/
theorem aget_foldl_adel_none {κ ν : Type} [DecidableEq κ] (ids : List κ) :
    ∀ (m : List (κ × ν)) (k : κ), aget m k = none → aget (ids.foldl adel m) k = none := by
  induction ids with
  | nil => intro m k h; exact h
  | cons j rest ih => intro m k h; exact ih _ _ (aget_adel_none _ _ _ h)

/-- Folded deletion removes every listed key. -/
theorem aget_foldl_adel_mem {κ ν : Type} [DecidableEq κ] (ids : List κ) :
    ∀ (m : List (κ × ν)) (k : κ), k ∈ ids → aget (ids.foldl adel m) k = none := by
  induction ids with
  | nil => intro m k h; cases h
  | cons j rest ih =>
    intro m k h
    rcases List.mem_cons.mp h with h | h
    · subst h
      exact aget_foldl_adel_none rest _ _ (aget_adel_self _ _)
    · exact ih _ _ h

/-- A prefix test fails when the head characters differ. -/
theorem sStarts_false_cons (l p : String) (c : Char) (cs : List Char) (d : Char)
    (ds : List Char) (hl : l.data = c :: cs) (hp : p.data = d :: ds) (hne : ¬ d = c) :
    sStarts l p = false := by
  unfold sStarts
  rw [hl, hp]
  simp [List.isPrefixOf, hne]

/-- A one-character prefix test succeeds on a matching head. -/
theorem sStarts_true_single (l p : String) (c : Char) (cs : List Char)
    (hl : l.data = c :: cs) (hp : p.data = [c]) : sStarts l p = true := by
  unfold sStarts
  rw [hl, hp]
  simp [List.isPrefixOf]

/-- A line that does not start with a global-property prefix cannot start
with the event prefix either. -/
theorem sStarts_zeroEvent (l : String) (h : sStarts l "0," = false) :
    sStarts l "0,Event" = false := by
  unfold sStarts at *
  cases hp : List.isPrefixOf ("0,Event").data l.data
  · rfl
  · exfalso
    have h1 : ("0,Event").data <+: l.data := List.isPrefixOf_iff_prefix.mp hp
    have h2 : ("0,").data <+: ("0,Event").data :=
      List.isPrefixOf_iff_prefix.mp (by decide)
    have h3 := List.isPrefixOf_iff_prefix.mpr (h2.trans h1)
    rw [h3] at h
    cases h

/-- Dispatching a logical line ignores the stored physical-line accumulator. -/
theorem parseLineOn_shift (st : ParserState) (x l : String) :
    parseLineOn { st with currentLine := x } l = parseLineOn st l := rfl

/-- Running a logical line always resets the accumulator to the empty string. -/
theorem runLine_currentLine (st : ParserState) (l : String) :
    (runLine st l).currentLine = "" := by
  unfold runLine parseLineOn
  split_ifs
  · rfl
  · rfl
  · unfold parseTimeMarker
    dsimp only
    split <;> rfl
  · rfl
  · unfold parseUpsert
    cases hsp : splitAtChar ',' l.data
    · rfl
    · rfl

/-- Overwriting the accumulator commutes with a fold of logical lines. -/
theorem foldl_runLine_shift (lls : List String) (st : ParserState) (x p : String) :
    { lls.foldl runLine { st with currentLine := x } with currentLine := p } =
      { lls.foldl runLine st with currentLine := p } := by
  cases lls <;> rfl

/-- The physical-line walk equals assembling logical lines (continuation
handling) followed by a fold of `runLine` over them. -/
theorem dispatch_foldl_eq (pls : List String) :
    ∀ st : ParserState,
      pls.foldl dispatchPhysical st =
        { (assembleAux st.currentLine pls).1.foldl runLine st with
            currentLine := (assembleAux st.currentLine pls).2 } := by
  induction pls with
  | nil => intro st; rfl
  | cons l rest ih =>
    intro st
    by_cases hc : sTrim l ≠ "" ∧ ¬ sStarts l "//" = true
    · by_cases he : sEnds l "\\" = true
      · have e1 : dispatchPhysical st l =
            { st with currentLine := st.currentLine ++ sDropLast l ++ "\n" } := by
          unfold dispatchPhysical
          rw [if_pos hc, if_pos he]
        have e2 : assembleAux st.currentLine (l :: rest) =
            assembleAux (st.currentLine ++ sDropLast l ++ "\n") rest := by
          conv_lhs => rw [assembleAux]
          rw [if_pos hc, if_pos he]
        rw [List.foldl_cons, e1, e2, ih]
        exact foldl_runLine_shift _ _ _ _
      · have e1 : dispatchPhysical st l =
            runLine st (st.currentLine ++ l) := by
          unfold dispatchPhysical
          rw [if_pos hc, if_neg he]
          exact parseLineOn_shift st _ _
        have e2 : assembleAux st.currentLine (l :: rest) =
            ((st.currentLine ++ l) :: (assembleAux "" rest).1, (assembleAux "" rest).2) := by
          conv_lhs => rw [assembleAux]
          rw [if_pos hc, if_neg he]
        rw [List.foldl_cons, e1, e2]
        have ih2 := ih (runLine st (st.currentLine ++ l))
        rw [runLine_currentLine] at ih2
        rw [ih2]
        rfl
    · have e1 : dispatchPhysical st l = st := by
        unfold dispatchPhysical
        rw [if_neg hc]
      have e2 : assembleAux st.currentLine (l :: rest) = assembleAux st.currentLine rest := by
        conv_lhs => rw [assembleAux]
        rw [if_neg hc]
      rw [List.foldl_cons, e1, e2, ih]

/-- A non time-marker logical line leaves the pushed frames, the current
timestamp and the in-flight frame's timestamp unchanged. -/
theorem runLine_nonmarker (st : ParserState) (l : String) (hm : sStarts l "#" = false) :
    (runLine st l).data.frames = st.data.frames ∧
    (runLine st l).currentTimeStamp = st.currentTimeStamp ∧
    (runLine st l).currentFrame.timeStamp = st.currentFrame.timeStamp := by
  unfold runLine parseLineOn
  rw [hm]
  simp only [Bool.false_eq_true, if_false]
  split_ifs
  · exact ⟨rfl, rfl, rfl⟩
  · exact ⟨rfl, rfl, rfl⟩
  · exact ⟨rfl, rfl, rfl⟩
  · unfold parseUpsert
    cases hsp : splitAtChar ',' l.data with
    | none => exact ⟨rfl, rfl, rfl⟩
    | some pr =>
      refine ⟨rfl, rfl, ?_⟩
      dsimp only
      repeat' split
      all_goals rfl

/-- Replacing the tail frame by one with the same timestamp preserves a
strictly ascending chain. -/
theorem chainFrames_last_swap (fs : List Frame) (f g : Frame)
    (hts : g.timeStamp = f.timeStamp)
    (h : List.Chain' (fun a b => frameLt a b = true) (fs ++ [f])) :
    List.Chain' (fun a b => frameLt a b = true) (fs ++ [g]) := by
  rw [List.chain'_append] at h ⊢
  refine ⟨h.1, List.chain'_singleton _, ?_⟩
  intro x hx y hy
  simp only [List.head?_cons, Option.mem_def, Option.some.injEq] at hy
  subst hy
  have := h.2.2 x hx f (by simp)
  unfold frameLt at this ⊢
  rw [hts]
  exact this

/-- Appending a frame above the previous tail preserves a strictly ascending
chain. -/
theorem chainFrames_push (fs : List Frame) (f g : Frame)
    (h : List.Chain' (fun a b => frameLt a b = true) (fs ++ [f]))
    (hrel : frameLt f g = true) :
    List.Chain' (fun a b => frameLt a b = true) ((fs ++ [f]) ++ [g]) := by
  rw [List.chain'_append]
  refine ⟨h, List.chain'_singleton _, ?_⟩
  intro x hx y hy
  simp only [List.head?_cons, Option.mem_def, Option.some.injEq] at hy
  subst hy
  rw [List.getLast?_concat] at hx
  simp only [Option.mem_def, Option.some.injEq] at hx
  subst hx
  exact hrel

/-- A successful single-character prefix test exposes the head character. -/
theorem sStarts_head_of_single (l p : String) (c : Char) (hp : p.data = [c])
    (h : sStarts l p = true) : ∃ cs, l.data = c :: cs := by
  unfold sStarts at h
  rw [hp] at h
  cases hd : l.data with
  | nil => rw [hd] at h; simp [List.isPrefixOf] at h
  | cons x xs =>
    rw [hd] at h
    simp only [List.isPrefixOf, List.isPrefixOf_nil_left, Bool.and_true, beq_iff_eq] at h
    exact ⟨xs, by rw [h]⟩

/-- Main invariant of the content loop: if the remaining time-marker values
are the non-decreasing rationals `qs`, the current timestamp is `q` (below
them all), and the frames pushed so far followed by the current frame form a
strictly ascending chain, then after the fold the same chain property holds. -/
theorem chainInv (ls : List String) :
    ∀ (st : ParserState) (q : ℚ) (qs : List ℚ),
      markerVals ls = qs.map JsNum.num →
      List.Chain' (· ≤ ·) (q :: qs) →
      st.currentTimeStamp = JsNum.num q →
      st.currentFrame.timeStamp = JsNum.num q →
      List.Chain' (fun a b => frameLt a b = true) (st.data.frames ++ [st.currentFrame]) →
      List.Chain' (fun a b => frameLt a b = true)
        ((ls.foldl runLine st).data.frames ++ [(ls.foldl runLine st).currentFrame]) := by
  induction ls with
  | nil => intro st q qs h1 h2 h3 h4 h5; exact h5
  | cons l rest ih =>
    intro st q qs h1 h2 h3 h4 h5
    rw [List.foldl_cons]
    by_cases hm : sStarts l "#" = true
    · obtain ⟨r2, hl2⟩ := sStarts_head_of_single l "#" '#' (by decide) hm
      have hmv : markerVals (l :: rest) =
          jsToNumber (sDrop l 1) :: markerVals rest := by
        simp [markerVals, hm]
      rw [hmv] at h1
      cases qs with
      | nil => simp at h1
      | cons m qs2 =>
        simp only [List.map_cons, List.cons.injEq] at h1
        obtain ⟨hv, hrest⟩ := h1
        have hA : sStarts l "0,Event" = false :=
          sStarts_false_cons l "0,Event" '#' r2 '0' (",Event").data hl2 (by decide) (by decide)
        have hB : sStarts l "0," = false :=
          sStarts_false_cons l "0," '#' r2 '0' (",").data hl2 (by decide) (by decide)
        have e1 : runLine st l = parseTimeMarker st l := by
          unfold runLine parseLineOn
          rw [hA, hB, hm]
          simp
        have hqm : q ≤ m := (List.chain'_cons.mp h2).1
        have hchain2 : List.Chain' (· ≤ ·) (m :: qs2) := (List.chain'_cons.mp h2).2
        by_cases hmq : m = q
        · have hneq : JsNum.strictNeq (jsToNumber (sDrop l 1)) st.currentTimeStamp = false := by
            rw [hv, h3, hmq]
            simp [JsNum.strictNeq]
          have e2 : parseTimeMarker st l =
              { st with
                currentFrame := { timeStamp := st.currentFrame.timeStamp,
                                  scene := st.destroyedIds.foldl adel st.currentFrame.scene },
                destroyedIds := [],
                currentLine := "" } := by
            unfold parseTimeMarker
            dsimp only
            rw [hneq]
            rw [if_neg (by simp)]
          rw [e1, e2]
          refine ih _ q qs2 hrest (hmq ▸ hchain2) ?_ ?_ ?_
          · exact h3
          · exact h4
          · exact chainFrames_last_swap st.data.frames st.currentFrame _ rfl h5
        · have hneq : JsNum.strictNeq (jsToNumber (sDrop l 1)) st.currentTimeStamp = true := by
            rw [hv, h3]
            simpa [JsNum.strictNeq] using hmq
          have e2 : parseTimeMarker st l =
              { st with
                data := { st.data with frames := (st.data.frames ++
                  [{ timeStamp := st.currentFrame.timeStamp,
                     scene := st.destroyedIds.foldl adel st.currentFrame.scene }]) },
                currentTimeStamp := jsToNumber (sDrop l 1),
                currentFrame := { timeStamp := jsToNumber (sDrop l 1),
                                  scene := st.destroyedIds.foldl adel st.currentFrame.scene },
                destroyedIds := [],
                currentLine := "" } := by
            unfold parseTimeMarker
            dsimp only
            rw [hneq]
            rw [if_pos rfl]
          rw [e1, e2]
          refine ih _ m qs2 hrest hchain2 ?_ ?_ ?_
          · dsimp only
            rw [hv]
          · dsimp only
            rw [hv]
          · dsimp only
            apply chainFrames_push
            · exact chainFrames_last_swap st.data.frames st.currentFrame _ rfl h5
            · unfold frameLt
              rw [hv, h4]
              unfold JsNum.ltB
              exact decide_eq_true (lt_of_le_of_ne hqm (fun hh => hmq hh.symm))
    · have hmF : sStarts l "#" = false := by simpa using hm
      have hmv : markerVals (l :: rest) = markerVals rest := by
        simp [markerVals, hmF]
      rw [hmv] at h1
      obtain ⟨f1, f2, f3⟩ := runLine_nonmarker st l hmF
      refine ih _ q qs h1 h2 ?_ ?_ ?_
      · exact f2.trans h3
      · exact f3.trans h4
      · rw [f1]
        exact chainFrames_last_swap st.data.frames st.currentFrame _ f3 h5

/-- Finalization never disturbs an ascending chain of pushed frames. -/
theorem finalizeContent_chain (st : ParserState)
    (h : List.Chain' (fun a b => frameLt a b = true) (st.data.frames ++ [st.currentFrame])) :
    List.Chain' (fun a b => frameLt a b = true) (finalizeContent st).data.frames := by
  unfold finalizeContent
  split
  case isTrue hlen =>
    dsimp only
    split
    · split
      · exact h
      · exact h
    · exact h
  case isFalse hlen =>
    have hnil : st.data.frames = [] := List.length_eq_zero.mp (not_ne_iff.mp hlen)
    rw [hnil]
    exact List.chain'_nil

/-- A line-feed-free suffix emits no physical line. -/
theorem physAux_noLF (t : List Char) (ht : ∀ d ∈ t, d ≠ '\n') :
    ∀ acc prev, physicalLinesAux acc prev t = [] := by
  induction t with
  | nil => intro acc prev; rfl
  | cons c rest ih =>
    intro acc prev
    have hc : c ≠ '\n' := ht c (List.mem_cons_self c rest)
    have hrest : ∀ d ∈ rest, d ≠ '\n' := fun d hd => ht d (List.mem_cons_of_mem c hd)
    unfold physicalLinesAux
    by_cases hr : c = '\r'
    · rw [if_pos hr]
      exact ih hrest _ _
    · rw [if_neg hr, if_neg hc]
      exact ih hrest _ _

/-- Appending a line-feed-free tail leaves the physical-line scan unchanged:
bytes after the final LF are never emitted. -/
theorem physAux_append (t : List Char) (ht : ∀ d ∈ t, d ≠ '\n') :
    ∀ (xs : List Char) acc prev,
      physicalLinesAux acc prev (xs ++ t) = physicalLinesAux acc prev xs := by
  intro xs
  induction xs with
  | nil =>
    intro acc prev
    rw [List.nil_append]
    exact physAux_noLF t ht acc prev
  | cons c rest ih =>
    intro acc prev
    rw [List.cons_append]
    unfold physicalLinesAux
    by_cases hr : c = '\r'
    · rw [if_pos hr, if_pos hr]
      exact ih _ _
    · by_cases hn : c = '\n'
      · rw [if_neg hr, if_pos hn, if_neg hr, if_pos hn, ih]
      · rw [if_neg hr, if_neg hn, if_neg hr, if_neg hn]
        exact ih _ _

/-- Splitting at a character absent from the list fails. -/
theorem splitAtChar_none (c : Char) (s : List Char) (hs : ∀ d ∈ s, d ≠ c) :
    splitAtChar c s = none := by
  induction s with
  | nil => rfl
  | cons x xs ih =>
    unfold splitAtChar
    rw [if_neg (hs x (List.mem_cons_self x xs))]
    rw [ih (fun d hd => hs d (List.mem_cons_of_mem x hd))]

/-- Splitting at a character commutes with appending a tail free of it. -/
theorem splitAtChar_append (c : Char) (xs s : List Char) (hs : ∀ d ∈ s, d ≠ c) :
    splitAtChar c (xs ++ s) =
      (splitAtChar c xs).map (fun pr => (pr.1, pr.2 ++ s)) := by
  induction xs with
  | nil =>
    rw [List.nil_append, splitAtChar_none c s hs]
    rfl
  | cons x xs ih =>
    rw [List.cons_append]
    unfold splitAtChar
    by_cases hx : x = c
    · rw [if_pos hx, if_pos hx]
      rfl
    · rw [if_neg hx, if_neg hx, ih]
      cases splitAtChar c xs with
      | none => rfl
      | some pr => rfl

/-- Characterization of a successful literal-prefix strip. -/
theorem stripPfx_eq_some (p : String) (cs r : List Char)
    (h : stripPfx p cs = some r) :
    p.data <+: cs ∧ r = cs.drop p.data.length := by
  unfold stripPfx at h
  by_cases hp : p.data.isPrefixOf cs = true
  · rw [if_pos hp] at h
    exact ⟨ List.isPrefixOf_iff_prefix.mp hp, (Option.some.injEq _ _ ▸ h).symm⟩
  · rw [if_neg hp] at h
    cases h

/-- Stripping a line-feed-free literal prefix commutes with appending a tail
when the base ends in a line feed. -/
theorem stripPfx_append (p : String) (hp : ∀ d ∈ p.data, d ≠ '\n')
    (cs s : List Char) (hcs : cs.getLast? = some '\n') :
    stripPfx p (cs ++ s) = (stripPfx p cs).map (fun r => r ++ s) := by
  unfold stripPfx
  by_cases h : p.data.isPrefixOf cs = true
  · have hpre : p.data <+: cs := List.isPrefixOf_iff_prefix.mp h
    have h2 : p.data.isPrefixOf (cs ++ s) = true :=
      List.isPrefixOf_iff_prefix.mpr (hpre.trans (List.prefix_append cs s))
    rw [if_pos h, if_pos h2]
    rw [List.drop_append_of_le_length hpre.length_le]
    rfl
  · have h2 : ¬ p.data.isPrefixOf (cs ++ s) = true := by
      intro h2
      have hpre2 : p.data <+: cs ++ s := List.isPrefixOf_iff_prefix.mp h2
      have hcspre : cs <+: cs ++ s := List.prefix_append cs s
      rcases List.prefix_or_prefix_of_prefix hpre2 hcspre with hA | hB
      · exact h (List.isPrefixOf_iff_prefix.mpr hA)
      · have hmem : '\n' ∈ cs := List.mem_of_getLast?_eq_some hcs
        exact hp '\n' (hB.subset hmem) rfl
    rw [if_neg h, if_neg h2]
    rfl

/-- Stripping a line-feed-free literal prefix from a list ending in a line
feed leaves a list still ending in a line feed. -/
theorem stripPfx_last (p : String) (hp : ∀ d ∈ p.data, d ≠ '\n')
    (cs : List Char) (hcs : cs.getLast? = some '\n') (r : List Char)
    (h : stripPfx p cs = some r) : r.getLast? = some '\n' := by
  obtain ⟨hpre, hr⟩ := stripPfx_eq_some p cs r h
  have hlt : p.data.length < cs.length := by
    rcases lt_or_eq_of_le hpre.length_le with hlt | heq
    · exact hlt
    · exfalso
      have : p.data = cs := hpre.eq_of_length heq
      have hmem : '\n' ∈ cs := List.mem_of_getLast?_eq_some hcs
      rw [← this] at hmem
      exact hp '\n' hmem rfl
  have hrne : r ≠ [] := by
    rw [hr]
    intro hnil
    have hlen := congrArg List.length hnil
    rw [List.length_drop] at hlen
    simp only [List.length_nil] at hlen
    omega
  have hsplit : cs.take p.data.length ++ r = cs := by
    rw [hr]; exact List.take_append_drop _ _
  rw [← hsplit] at hcs
  rw [List.getLast?_append] at hcs
  cases hru : r.getLast? with
  | none => exact absurd (List.getLast?_eq_none_iff.mp hru) hrne
  | some y =>
    rw [hru, Option.or_some] at hcs
    exact hcs

/-- A list ending in a line feed always splits at it, and the remainder is
empty or again ends in a line feed. -/
theorem splitAtChar_of_last (cs : List Char) (hcs : cs.getLast? = some '\n') :
    ∃ a b, splitAtChar '\n' cs = some (a, b) ∧
      (b = [] ∨ b.getLast? = some '\n') := by
  induction cs with
  | nil => cases hcs
  | cons x xs ih =>
    cases xs with
    | nil =>
      have hx : x = '\n' := by
        have : some x = some '\n' := hcs
        exact Option.some.inj this
      refine ⟨[], [], ?_, Or.inl rfl⟩
      unfold splitAtChar
      rw [if_pos hx]
    | cons y ys =>
      have hlast : (y :: ys).getLast? = some '\n' := by
        rw [← List.getLast?_cons_cons]
        exact hcs
      by_cases hx : x = '\n'
      · refine ⟨[], y :: ys, ?_, Or.inr hlast⟩
        unfold splitAtChar
        rw [if_pos hx]
      · obtain ⟨a, b, hsp, hb⟩ := ih hlast
        refine ⟨x :: a, b, ?_, hb⟩
        unfold splitAtChar
        rw [if_neg hx, hsp]

/-- Removing the BOM commutes with appending to a nonempty list. -/
theorem stripBOM_append (cs s : List Char) (hne : cs ≠ []) :
    stripBOM (cs ++ s) = stripBOM cs ++ s := by
  cases cs with
  | nil => exact absurd rfl hne
  | cons c rest =>
    rw [List.cons_append]
    by_cases hc : c = '﻿'
    · subst hc
      rfl
    · unfold stripBOM
      split
      · rename_i heq
        exact absurd (List.head_eq_of_cons_eq heq) hc
      · split
        · rename_i heq
          exact absurd (List.head_eq_of_cons_eq heq) hc
        · rfl

/-- Removing the BOM preserves a trailing line feed. -/
theorem stripBOM_last (cs : List Char) (hcs : cs.getLast? = some '\n') :
    (stripBOM cs).getLast? = some '\n' := by
  cases cs with
  | nil => cases hcs
  | cons c rest =>
    by_cases hc : c = '﻿'
    · subst hc
      cases rest with
      | nil => cases hcs
      | cons y ys =>
        have : stripBOM ('﻿' :: y :: ys) = y :: ys := rfl
        rw [this, ← List.getLast?_cons_cons]
        exact hcs
    · unfold stripBOM
      split
      · rename_i heq
        exact absurd (List.head_eq_of_cons_eq heq) hc
      · exact hcs

/-- The header pattern is stable under appending line-feed-free bytes to a
buffer ending in a line feed: the pattern's captures stop at line feeds, so
the extra bytes can neither complete nor alter a match. -/
theorem headerMatch_append (cs s : List Char) (hcs : cs.getLast? = some '\n')
    (hs : ∀ d ∈ s, d ≠ '\n') :
    headerMatch (cs ++ s) = headerMatch cs := by
  have hne : cs ≠ [] := by
    intro h
    rw [h] at hcs
    cases hcs
  unfold headerMatch
  dsimp only
  rw [stripBOM_append cs s hne]
  have h1 : (stripBOM cs).getLast? = some '\n' := stripBOM_last cs hcs
  rw [stripPfx_append "FileType=" (by decide) (stripBOM cs) s h1]
  cases hsp : stripPfx "FileType=" (stripBOM cs) with
  | none => rfl
  | some r1 =>
    simp only [Option.bind_eq_bind, Option.map_some', Option.some_bind]
    have h2 : r1.getLast? = some '\n' := stripPfx_last "FileType=" (by decide) _ h1 r1 hsp
    obtain ⟨a, b, hsp2, hb⟩ := splitAtChar_of_last r1 h2
    rw [splitAtChar_append '\n' r1 s hs, hsp2]
    simp only [Option.bind_eq_bind, Option.map_some', Option.some_bind]
    rcases hb with hbnil | hblast
    · subst hbnil
      rw [List.nil_append]
      cases hsp3 : stripPfx "FileVersion=" s with
      | none => rfl
      | some r2 =>
        simp only [Option.bind_eq_bind, Option.some_bind]
        obtain ⟨_, hr2⟩ := stripPfx_eq_some "FileVersion=" s r2 hsp3
        have hr2n : ∀ d ∈ r2, d ≠ '\n' := by
          intro d hd
          rw [hr2] at hd
          exact hs d (List.drop_subset _ _ hd)
        rw [splitAtChar_none '\n' r2 hr2n]
        rfl
    · rw [stripPfx_append "FileVersion=" (by decide) b s hblast]
      cases hsp3 : stripPfx "FileVersion=" b with
      | none => rfl
      | some r2 =>
        simp only [Option.bind_eq_bind, Option.map_some', Option.some_bind]
        have h3 : r2.getLast? = some '\n' := stripPfx_last "FileVersion=" (by decide) b hblast r2 hsp3
        obtain ⟨a2, b2, hsp4, _⟩ := splitAtChar_of_last r2 h3
        rw [splitAtChar_append '\n' r2 s hs, hsp4]
        rfl

/-- The 64-byte header parse is unchanged by a line-feed-free tail (whether
the tail is cut off by the 64-byte slice or falls inside it). -/
theorem parseHeaderStep_append (st : ParserState) (u t : List Char)
    (ht : ∀ d ∈ t, d ≠ '\n') :
    parseHeaderStep st ((u ++ ['\n']) ++ t) = parseHeaderStep st (u ++ ['\n']) := by
  unfold parseHeaderStep
  have hmm : headerMatch (((u ++ ['\n']) ++ t).take 64) =
      headerMatch ((u ++ ['\n']).take 64) := by
    by_cases hlen : 64 ≤ (u ++ ['\n']).length
    · rw [List.take_append_of_le_length hlen]
    · push_neg at hlen
      have h64 : (u ++ ['\n']).take 64 = u ++ ['\n'] :=
        List.take_of_length_le (le_of_lt hlen)
      have hsplit : (64 : ℕ) = (u ++ ['\n']).length + (64 - (u ++ ['\n']).length) := by
        omega
      rw [h64, hsplit, List.take_append]
      apply headerMatch_append
      · rw [List.getLast?_append]
        rfl
      · intro d hd
        exact ht d (List.take_subset _ _ hd)
  rw [hmm]

/-- The dispatched physical lines are unchanged by a line-feed-free tail. -/
theorem physicalLines_append (u t : List Char) (ht : ∀ d ∈ t, d ≠ '\n') :
    physicalLines ((u ++ ['\n']) ++ t) = physicalLines (u ++ ['\n']) := by
  unfold physicalLines
  rw [physAux_append t ht (u ++ ['\n']) [] false]

/- ## The claims -/

/-- C3 — counterexample: on the nine-slot value `1|2|3|4|5|6|7|8|9` the
decoder takes roll, pitch, yaw from slots 4–6 (indices 3–5), yielding
roll = 4, pitch = 5, yaw = 6, not roll = 6 as the claim's slot assignment
(indices 5–7) would require. -/
theorem C3_counterexample :
    (decodeTransform (JsNum.num 0) (JsNum.num 0) none
        (sSplitOnChar '|' "1|2|3|4|5|6|7|8|9")).roll = some (JsNum.num 4) ∧
    (decodeTransform (JsNum.num 0) (JsNum.num 0) none
        (sSplitOnChar '|' "1|2|3|4|5|6|7|8|9")).pitch = some (JsNum.num 5) ∧
    (decodeTransform (JsNum.num 0) (JsNum.num 0) none
        (sSplitOnChar '|' "1|2|3|4|5|6|7|8|9")).yaw = some (JsNum.num 6) ∧
    ¬ (decodeTransform (JsNum.num 0) (JsNum.num 0) none
        (sSplitOnChar '|' "1|2|3|4|5|6|7|8|9")).roll = some (JsNum.num 6) := by
  decide

/-- C3 — amended: in the nine-slot form the decoder takes longitude offset,
latitude offset and altitude from slots a, b, c and roll, pitch, yaw from
slots d, e, f (indices 3–5), ignoring the unused slots g, h, i; in the
six-slot form the last three slots are roll, pitch, yaw; each empty token
inherits the corresponding component from the entity's prior transform. -/
theorem C3_amended (rlo rla : JsNum) (cur : Option ITransform)
    (a b c d e f g h i g2 h2 i2 : String) :
    decodeTransform rlo rla cur [a, b, c, d, e, f, g, h, i] =
        decodeTransform rlo rla cur [a, b, c, d, e, f, g2, h2, i2] ∧
    (decodeTransform rlo rla cur [a, b, c, d, e, f, g, h, i]).roll =
        (if d = "" then cur.bind ITransform.roll else some (jsToNumber d)) ∧
    (decodeTransform rlo rla cur [a, b, c, d, e, f, g, h, i]).pitch =
        (if e = "" then cur.bind ITransform.pitch else some (jsToNumber e)) ∧
    (decodeTransform rlo rla cur [a, b, c, d, e, f, g, h, i]).yaw =
        (if f = "" then cur.bind ITransform.yaw else some (jsToNumber f)) ∧
    (decodeTransform rlo rla cur [a, b, c, d, e, f]).roll =
        (if d = "" then cur.bind ITransform.roll else some (jsToNumber d)) ∧
    (decodeTransform rlo rla cur [a, b, c, d, e, f]).pitch =
        (if e = "" then cur.bind ITransform.pitch else some (jsToNumber e)) ∧
    (decodeTransform rlo rla cur [a, b, c, d, e, f]).yaw =
        (if f = "" then cur.bind ITransform.yaw else some (jsToNumber f)) ∧
    (decodeTransform rlo rla cur [a, b, c, d, e, f, g, h, i]).longitude =
        (if a = "" then (cur.map ITransform.longitude).getD (JsNum.num 0)
         else rlo.add (jsToNumber a)) ∧
    (decodeTransform rlo rla cur [a, b, c, d, e, f, g, h, i]).latitude =
        (if b = "" then (cur.map ITransform.latitude).getD (JsNum.num 0)
         else rla.add (jsToNumber b)) ∧
    (decodeTransform rlo rla cur [a, b, c, d, e, f, g, h, i]).altitude =
        (if c = "" then (cur.map ITransform.altitude).getD (JsNum.num 0)
         else jsToNumber c) :=
  ⟨rfl, rfl, rfl, rfl, rfl, rfl, rfl, rfl, rfl, rfl⟩

/-- C4 — evaluation at the failing input: on a recording whose span duration
(2 s) is an exact multiple of the sample rate (1 s) with the entity present
and moving at the end, the loop already samples at the span end and the
unconditional post-loop step appends a second sample at the same instant, so
the sample times are `[1000, 1002, 1002]` and are not strictly increasing. -/
theorem C4_code_eval :
    ((aget (createSampledTrajectories sampleGeo dataC4 {}) (some 1)).getD {}).samples.map
        TrajectorySample.time = [some 1000, some 1002, some 1002] ∧
    chainB instantLtB
        (((aget (createSampledTrajectories sampleGeo dataC4 {}) (some 1)).getD {}).samples.map
          TrajectorySample.time) = false := by
  decide

/-- C8 — evaluation at the failing input: with the stored roll 0 and the raw
value −0.5 rad, the blended value is −1/40 rad ≈ −1.43°; the code's
zero-forcing has no absolute value, so any positive threshold (in either
source tree: 2° ≈ 0.0349 or 1° ≈ 0.0175) forces the negative roll to 0,
while the claimed rule (`|smooth| < 1°`, any `oneDegree ≤ 1/40`, which holds
of π/180 < 0.025) returns −1/40. -/
theorem C8_code_eval (threshold oneDegree : ℚ)
    (hth : 0 < threshold) (hod : 0 < oneDegree) (hod40 : oneDegree ≤ 1 / 40) :
    simpleSmooth threshold (1 / 20) 0 (-(1 / 2)) = 0 ∧
    specSmooth oneDegree (1 / 20) 0 (-(1 / 2)) = -(1 / 40) ∧
    ((0 : ℚ) ≠ -(1 / 40)) := by
  refine ⟨?_, ?_, by norm_num⟩
  · unfold simpleSmooth
    rw [if_pos (by linarith)]
  · unfold specSmooth
    rw [if_neg, show (1 / 20 : ℚ) * (-(1 / 2)) + (1 - 1 / 20) * 0 = -(1 / 40) by norm_num]
    rw [show (1 / 20 : ℚ) * (-(1 / 2)) + (1 - 1 / 20) * 0 = -(1 / 40) by norm_num,
      abs_of_nonpos (by norm_num)]
    push_neg
    linarith

/-- C8 — witness at the concrete thresholds of the two source trees. -/
theorem C8_code_eval_witness :
    simpleSmooth (349 / 10000) (1 / 20) 0 (-(1 / 2)) = 0 ∧
    specSmooth (175 / 10000) (1 / 20) 0 (-(1 / 2)) = -(1 / 40) ∧
    ((0 : ℚ) ≠ -(1 / 40)) :=
  C8_code_eval (349 / 10000) (175 / 10000) (by norm_num) (by norm_num) (by norm_num)

/-- C9 — for active references L, Λ and a `T=` row whose first two tokens
are non-empty decimal floats x and y, the decoded longitude is exactly L + x
and the decoded latitude exactly Λ + y (the decoder performs a single exact
addition per component and nothing else). -/
theorem C9_theorem (rlo rla x y : ℚ) (cur : Option ITransform)
    (xs ys : String) (rest : List String)
    (hx : ¬ xs = "") (hy : ¬ ys = "")
    (hxv : jsToNumber xs = JsNum.num x) (hyv : jsToNumber ys = JsNum.num y) :
    (decodeTransform (JsNum.num rlo) (JsNum.num rla) cur (xs :: ys :: rest)).longitude =
        JsNum.num (rlo + x) ∧
    (decodeTransform (JsNum.num rlo) (JsNum.num rla) cur (xs :: ys :: rest)).latitude =
        JsNum.num (rla + y) := by
  unfold decodeTransform
  constructor
  · split <;> simp [hx, hy, hxv, hyv, JsNum.add]
  · split <;> simp [hx, hy, hxv, hyv, JsNum.add]

/-- C9 — witness at a concrete row. -/
theorem C9_theorem_witness :
    ¬ "1.5" = "" ∧
    (decodeTransform (JsNum.num 10) (JsNum.num 20) none ["1.5", "2", "3"]).longitude =
      JsNum.num (10 + 3 / 2) := by
  refine ⟨by decide, ?_⟩
  exact (C9_theorem 10 20 (3 / 2) 2 none "1.5" "2" ["3"] (by decide) (by decide)
    (by decide) (by decide)).1

/-- C1 — counterexample: a buffer with no header at all does not match the
header pattern, so `isValid` keeps its initial `true`, and the content loop
still runs: the remaining global-property line is decoded (`author` is set),
contradicting both the claimed `isValid = false` and the claimed absence of
produced global properties. -/
theorem C1_counterexample :
    headerMatch (bufNoHeader.take 64) = none ∧
    (parseAcmi [] bufNoHeader).isValid = true ∧
    (parseAcmi [] bufNoHeader).globalProperties.author = some "me" := by
  decide

/-- C1 — amended: when the first two physical lines match the header pattern
but fail the type/version check, the returned data has `isValid = false`;
however, parsing does not halt — the content loop still runs on the
remaining lines (see the counterexample for records being produced), and a
buffer that does not match the pattern at all leaves `isValid` at its
initial `true`. -/
theorem C1_amended (F : List String) (buf : List Char) (ty ver : String)
    (hm : headerMatch (buf.take 64) = some (ty, ver))
    (hbad : ¬ (ty = acmiType ∧ acmiVersions.contains ver = true)) :
    (parseAcmi F buf).isValid = false := by
  have hfalse : (decide (ty = acmiType) && acmiVersions.contains ver) = false := by
    by_cases hty : ty = acmiType
    · simp only [hty, decide_True, Bool.true_and]
      by_cases hc : acmiVersions.contains ver = true
      · exact absurd ⟨hty, hc⟩ hbad
      · simpa using hc
    · simp [hty]
  show (finalizeEntities (finalizeContent
      (parseContentCore (parseHeaderStep { filter := F } buf) buf)).data).isValid = false
  have hfe : ∀ d : AcmiData, (finalizeEntities d).isValid = d.isValid := fun d => rfl
  rw [hfe]
  apply finalizeContent_valid_mono
  unfold parseContentCore
  apply core_valid_mono
  unfold parseHeaderStep
  rw [hm]
  simpa using hfalse

/-- C1 — witness: a concrete buffer with a matching header and the
unsupported version `9.9`. -/
theorem C1_amended_witness :
    headerMatch (bufBadVersion.take 64) = some ("text/acmi/tacview", "9.9") ∧
    (parseAcmi [] bufBadVersion).isValid = false := by
  refine ⟨by decide, ?_⟩
  exact C1_amended [] bufBadVersion "text/acmi/tacview" "9.9" (by decide) (by decide)

/-- C2 — counterexample: the kept entity `a` is upserted at `#2`, removed by
`-a`, and `#3` follows; in the returned data the frame with timestamp 2 has
`a` already deleted from its scene (the pending destruction is applied to the
in-flight frame before it is pushed), contradicting the claimed presence at
t = 2.  The time-span end `referenceTime + 2` (10 + 2) does hold. -/
theorem C2_counterexample :
    (parseAcmi [] bufRemoval).frames.map Frame.timeStamp =
      [JsNum.num 0, JsNum.num 2, JsNum.num 3] ∧
    aget ((parseAcmi [] bufRemoval).frames.getD 1 { timeStamp := JsNum.nan }).scene
      (some 10) = none ∧
    (aget (parseAcmi [] bufRemoval).entities (some 10)).map (fun e => e.timeSpan.endT) =
      some (some 12) ∧
    (parseAcmi [] bufRemoval).globalProperties.referenceTime = some 10 := by
  decide

/-- C5 — counterexample: with filter `["Air"]`, entity `a` is first upserted
with `Type=Air` (rejected), but a later upsert of the same id without a
`Type=` field re-runs the filter decision (the id was never stored, so it
counts as new again) and keeps it, so the entity ends up in the returned
`entities` map, contradicting the claimed absence for the whole parse. -/
theorem C5_counterexample :
    (aget (parseAcmi ["Air"] bufRefilter).entities (some 10)).isSome = true ∧
    ((aget (parseAcmi ["Air"] bufRefilter).entities (some 10)).getD
      { id := none }).name = some "x" := by
  decide

/-- C6 — counterexample: a file with a valid header and no time markers
leaves `frames` empty, so the span/validity finalization is skipped entirely
and `isValid` stays `true` even though the reference time is absent and no
non-empty frame exists, contradicting the claimed `isValid = false`. -/
theorem C6_counterexample :
    (parseAcmi [] bufNoMarkers).globalProperties.referenceTime = none ∧
    (parseAcmi [] bufNoMarkers).frames = [] ∧
    (parseAcmi [] bufNoMarkers).isValid = true := by
  decide

/-- C7 — counterexample: time markers may rewind (`#5` then `#3`); frames
are pushed on every timestamp change (`!==`, not `>`), so the returned frame
list `[0, 5, 3]` is not sorted, contradicting the claimed invariant for
every input. -/
theorem C7_counterexample :
    (parseAcmi [] bufRewind).frames.map Frame.timeStamp =
      [JsNum.num 0, JsNum.num 5, JsNum.num 3] ∧
    chainB frameLt (parseAcmi [] bufRewind).frames = false := by
  decide

/-- C6 -- amended: the time-span equations of the claim hold whenever the
reference time is set and a non-empty frame exists; but the clearing of
`isValid` happens only when at least one frame was pushed -- with `frames`
empty (e.g. no time markers at all), `isValid` is left unchanged. -/
theorem C6_amended (F : List String) (buf : List Char) :
    (∀ r ff lf, (parseAcmi F buf).globalProperties.referenceTime = some r →
        (parseAcmi F buf).frames.find? (fun f => f.scene.length ≠ 0) = some ff →
        (parseAcmi F buf).frames.getLast? = some lf →
        (parseAcmi F buf).timeSpan.start = Instant.addNum (some r) ff.timeStamp ∧
        (parseAcmi F buf).timeSpan.endT = Instant.addNum (some r) lf.timeStamp) ∧
    ((parseAcmi F buf).frames ≠ [] →
      ((parseAcmi F buf).globalProperties.referenceTime = none ∨
        (parseAcmi F buf).frames.find? (fun f => f.scene.length ≠ 0) = none) →
      (parseAcmi F buf).isValid = false) :=
  finalizeContent_spec (parseContentCore (parseHeaderStep { filter := F } buf) buf)

/-- C6 -- witness on a concrete minimal recording. -/
theorem C6_amended_witness :
    (parseAcmi [] bufMinimal).timeSpan.start = some 10 ∧
    (parseAcmi [] bufMinimal).timeSpan.endT = some 11 := by
  have h := (C6_amended [] bufMinimal).1 10
    { timeStamp := JsNum.num 0,
      scene := [(some 10,
        { longitude := JsNum.num 1, latitude := JsNum.num 2, altitude := JsNum.num 3 })] }
    { timeStamp := JsNum.num 1,
      scene := [(some 10,
        { longitude := JsNum.num (3/2), latitude := JsNum.num 2, altitude := JsNum.num 100 })] }
    (by decide) (by decide) (by decide)
  refine ⟨?_, ?_⟩
  · rw [h.1]; decide
  · rw [h.2]; decide

/-- C2 -- amended: when a kept entity with id a receives a removal record
while the current timestamp is t and a marker with a different timestamp tq
follows, the entity's timeSpan.end is referenceTime + t, but the id is
deleted from the in-flight frame's scene before that frame (timeStamp t) is
pushed, so the entity is absent already from the emitted frame at t, and
absent from the new current frame (timestamp tq) onward. -/
theorem C2_amended (st : ParserState) (a : Int) (r t tq : ℚ) (ep : EntityProps)
    (l1 l2 : String) (r1 r2 : List Char)
    (hl1 : l1.data = '-' :: r1) (hid : parseIntHex (ofL r1) = some a)
    (hl2 : l2.data = '#' :: r2) (htq : jsToNumber (sDrop l2 1) = JsNum.num tq)
    (hkept : st.filteredIds.contains (some a) = true)
    (hent : aget st.data.entities (some a) = some ep)
    (hts : st.currentTimeStamp = JsNum.num t)
    (hfts : st.currentFrame.timeStamp = JsNum.num t)
    (hrt : st.data.globalProperties.referenceTime = some r)
    (hne : ¬ tq = t) :
    (aget (runLine st l1).data.entities (some a)).map (fun e => e.timeSpan.endT) =
      some (some (r + t)) ∧
    (runLine st l1).data.frames = st.data.frames ∧
    (∃ fr, (runLine (runLine st l1) l2).data.frames = st.data.frames ++ [fr] ∧
      fr.timeStamp = JsNum.num t ∧ aget fr.scene (some a) = none) ∧
    (runLine (runLine st l1) l2).currentFrame.timeStamp = JsNum.num tq ∧
    aget (runLine (runLine st l1) l2).currentFrame.scene (some a) = none := by
  have hA1 : sStarts l1 "0,Event" = false :=
    sStarts_false_cons l1 "0,Event" '-' r1 '0' (",Event").data hl1 (by decide) (by decide)
  have hB1 : sStarts l1 "0," = false :=
    sStarts_false_cons l1 "0," '-' r1 '0' (",").data hl1 (by decide) (by decide)
  have hC1 : sStarts l1 "#" = false :=
    sStarts_false_cons l1 "#" '-' r1 '#' [] hl1 (by decide) (by decide)
  have hD1 : sStarts l1 "-" = true := sStarts_true_single l1 "-" '-' r1 hl1 (by decide)
  have hdrop1 : sDrop l1 1 = ofL r1 := by unfold sDrop; rw [hl1]; rfl
  have e1 : runLine st l1 = parseRemoval st l1 := by
    unfold runLine parseLineOn
    rw [hA1, hB1, hC1, hD1]
    simp
  have e2 : parseRemoval st l1 =
      { st with
        data := { st.data with entities :=
          (aset st.data.entities (some a)
            { ep with timeSpan := { ep.timeSpan with endT := some (r + t) } }) },
        destroyedIds := st.destroyedIds ++ [some a],
        currentLine := "" } := by
    unfold parseRemoval
    rw [hdrop1, hid]
    dsimp only
    rw [hent]
    dsimp only
    rw [hkept, hrt, hts]
    rfl
  have hA2 : sStarts l2 "0,Event" = false :=
    sStarts_false_cons l2 "0,Event" '#' r2 '0' (",Event").data hl2 (by decide) (by decide)
  have hB2 : sStarts l2 "0," = false :=
    sStarts_false_cons l2 "0," '#' r2 '0' (",").data hl2 (by decide) (by decide)
  have hC2 : sStarts l2 "#" = true := sStarts_true_single l2 "#" '#' r2 hl2 (by decide)
  have e3 : runLine (runLine st l1) l2 = parseTimeMarker (runLine st l1) l2 := by
    unfold runLine parseLineOn
    rw [hA2, hB2, hC2]
    simp
  have f1 : (runLine st l1).currentTimeStamp = JsNum.num t := by rw [e1, e2]; exact hts
  have f2 : (runLine st l1).currentFrame = st.currentFrame := by rw [e1, e2]
  have f3 : (runLine st l1).destroyedIds = st.destroyedIds ++ [some a] := by rw [e1, e2]
  have f4 : (runLine st l1).data.frames = st.data.frames := by rw [e1, e2]
  have hneq : JsNum.strictNeq (jsToNumber (sDrop l2 1))
      (runLine st l1).currentTimeStamp = true := by
    rw [htq, f1]
    simpa [JsNum.strictNeq] using hne
  have hscene : aget ((runLine st l1).destroyedIds.foldl adel
      (runLine st l1).currentFrame.scene) (some a) = none := by
    apply aget_foldl_adel_mem
    rw [f3]
    exact List.mem_append_right _ (List.mem_singleton.mpr rfl)
  have e4 : parseTimeMarker (runLine st l1) l2 =
      { (runLine st l1) with
        data := { (runLine st l1).data with frames := ((runLine st l1).data.frames ++
          [{ timeStamp := (runLine st l1).currentFrame.timeStamp,
             scene := (runLine st l1).destroyedIds.foldl adel
               (runLine st l1).currentFrame.scene }]) },
        currentTimeStamp := jsToNumber (sDrop l2 1),
        currentFrame := { timeStamp := jsToNumber (sDrop l2 1),
                          scene := (runLine st l1).destroyedIds.foldl adel
                            (runLine st l1).currentFrame.scene },
        destroyedIds := [],
        currentLine := "" } := by
    unfold parseTimeMarker
    dsimp only
    rw [if_pos hneq]
  refine ⟨?_, f4, ?_, ?_, ?_⟩
  · rw [e1, e2]
    dsimp only
    rw [aget_aset_self]
    rfl
  · refine ⟨{ timeStamp := (runLine st l1).currentFrame.timeStamp,
              scene := (runLine st l1).destroyedIds.foldl adel
                (runLine st l1).currentFrame.scene }, ?_, ?_, hscene⟩
    · rw [e3, e4]
      dsimp only
      rw [f4]
    · dsimp only
      rw [f2, hfts]
  · rw [e3, e4, htq]
  · rw [e3, e4]
    exact hscene

/-- C2 -- witness on a concrete kept-entity state. -/
theorem C2_amended_witness :
    (aget (runLine stC2 "-a").data.entities (some 10)).map (fun e => e.timeSpan.endT) =
      some (some (100 + 2)) ∧
    (∃ fr, (runLine (runLine stC2 "-a") "#3").data.frames = stC2.data.frames ++ [fr] ∧
      fr.timeStamp = JsNum.num 2 ∧ aget fr.scene (some 10) = none) := by
  have h := C2_amended stC2 10 100 2 3 { id := some 10 } "-a" "#3" ['a'] ['3']
    (by decide) (by decide) (by decide) (by decide) (by decide) (by decide) (by decide)
    (by decide) (by decide) (by decide)
  exact ⟨h.1, h.2.2.1⟩

/-- C5 -- amended: at each upsert line whose id is not yet stored (and not in
the kept set), the filter decision is evaluated from that line's resulting
types: if it rejects (some declared type is filtered, or no types are
declared and Untyped is filtered), the id is not stored, not added to the
kept set, and no transform is placed in the scene by that line; if it keeps,
the entity is stored and the id appended to the kept set.  A previously
rejected entity can therefore be admitted by a later upsert whose own
decision keeps it (see the counterexample), so absence holds for the whole
parse only when every upsert of the id is rejected. -/
theorem C5_amended (st : ParserState) (l : String) (idCs restCs : List Char)
    (hA : sStarts l "0," = false) (hB : sStarts l "#" = false)
    (hC : sStarts l "-" = false)
    (hcomma : splitAtChar ',' l.data = some (idCs, restCs))
    (hnew : aget st.data.entities (parseIntHex (ofL idCs)) = none)
    (hnotf : st.filteredIds.contains (parseIntHex (ofL idCs)) = false) :
    (filterKeep st.filter
        ((splitProps (ofL restCs)).foldl
          (applyEntityProp st.data.globalProperties.referenceTime st.currentTimeStamp)
          ({ id := parseIntHex (ofL idCs)
             timeSpan :=
               { start := st.data.globalProperties.referenceTime.addNum st.currentTimeStamp } },
            st.data.isValid)).1.types = false →
      (runLine st l).data.entities = st.data.entities ∧
      (runLine st l).filteredIds = st.filteredIds ∧
      (runLine st l).currentFrame = st.currentFrame) ∧
    (filterKeep st.filter
        ((splitProps (ofL restCs)).foldl
          (applyEntityProp st.data.globalProperties.referenceTime st.currentTimeStamp)
          ({ id := parseIntHex (ofL idCs)
             timeSpan :=
               { start := st.data.globalProperties.referenceTime.addNum st.currentTimeStamp } },
            st.data.isValid)).1.types = true →
      aget (runLine st l).data.entities (parseIntHex (ofL idCs)) =
        some ((splitProps (ofL restCs)).foldl
          (applyEntityProp st.data.globalProperties.referenceTime st.currentTimeStamp)
          ({ id := parseIntHex (ofL idCs)
             timeSpan :=
               { start := st.data.globalProperties.referenceTime.addNum st.currentTimeStamp } },
            st.data.isValid)).1 ∧
      (runLine st l).filteredIds = st.filteredIds ++ [parseIntHex (ofL idCs)]) := by
  have hAE : sStarts l "0,Event" = false := sStarts_zeroEvent l hA
  have e1 : runLine st l = parseUpsert st l := by
    unfold runLine parseLineOn
    rw [hAE, hA, hB, hC]
    simp
  rw [e1]
  unfold parseUpsert
  rw [hcomma]
  dsimp only
  rw [hnew]
  simp only [Option.getD_none, Option.isNone_none, if_true]
  constructor
  · intro hkeep
    have hnm : parseIntHex (ofL idCs) ∉ st.filteredIds := by simpa using hnotf
    rw [hkeep]
    simp [hnm]
  · intro hkeep
    rw [hkeep]
    simp [aget_aset_self]

/-- C5 -- witness: a fresh filtered-out upsert leaves the state unchanged. -/
theorem C5_amended_witness :
    (runLine stC5 "b,Type=Air").data.entities = [] ∧
    (runLine stC5 "b,Type=Air").filteredIds = [] := by
  have h := (C5_amended stC5 "b,Type=Air" ['b'] ("Type=Air").data (by decide) (by decide)
    (by decide) (by decide) (by decide) (by decide)).1 (by decide)
  exact ⟨h.1, h.2.1⟩

/-- C7 -- amended: whenever the time-marker values of a recording's logical
lines are, in order, the non-decreasing nonnegative rationals `qs` (so that
`0 :: qs` is a weakly ascending chain from the initial timestamp 0), the
frames of the parsed data are strictly ascending in timestamp. -/
theorem C7_amended (F : List String) (buf : List Char) (qs : List ℚ)
    (hmv : markerVals (logicalLines buf) = qs.map JsNum.num)
    (hchain : List.Chain' (· ≤ ·) ((0 : ℚ) :: qs)) :
    chainB frameLt (parseAcmi F buf).frames = true := by
  rw [chainB_iff]
  have hfields : (parseHeaderStep { filter := F } buf).currentLine = "" ∧
      (parseHeaderStep { filter := F } buf).currentTimeStamp = JsNum.num 0 ∧
      (parseHeaderStep { filter := F } buf).currentFrame.timeStamp = JsNum.num 0 ∧
      (parseHeaderStep { filter := F } buf).data.frames = [] := by
    unfold parseHeaderStep
    cases hh : headerMatch (buf.take 64) with
    | none => exact ⟨rfl, rfl, rfl, rfl⟩
    | some tv =>
      obtain ⟨ty, ver⟩ := tv
      exact ⟨rfl, rfl, rfl, rfl⟩
  obtain ⟨hf1, hf2, hf3, hf4⟩ := hfields
  have hcore : parseContentCore (parseHeaderStep { filter := F } buf) buf =
      { (logicalLines buf).foldl runLine (parseHeaderStep { filter := F } buf) with
          currentLine :=
            (assembleAux (parseHeaderStep { filter := F } buf).currentLine
              (physicalLines buf)).2 } := by
    unfold parseContentCore logicalLines
    rw [dispatch_foldl_eq, hf1]
  have hinv := chainInv (logicalLines buf) (parseHeaderStep { filter := F } buf) 0 qs
    hmv hchain hf2 hf3 (by rw [hf4]; exact List.chain'_singleton _)
  show List.Chain' _ (finalizeEntities (finalizeContent
    (parseContentCore (parseHeaderStep { filter := F } buf) buf)).data).frames
  have hfe : ∀ d : AcmiData, (finalizeEntities d).frames = d.frames := fun d => rfl
  rw [hfe]
  apply finalizeContent_chain
  rw [hcore]
  exact hinv

/-- C7 -- witness: the minimal recording with markers 0 and 1 yields strictly
ascending frames, by the amended theorem at qs = [0, 1]. -/
theorem C7_amended_witness :
    chainB frameLt (parseAcmi [] bufMinimal).frames = true :=
  C7_amended [] bufMinimal [0, 1] (by decide)
    (List.chain'_cons.mpr ⟨by norm_num, List.chain'_cons.mpr ⟨by norm_num,
      List.chain'_singleton _⟩⟩)

/-- C10 -- for every buffer decomposing as a line-feed-terminated base
followed by a tail with no line feed (so the bytes after the final LF form an
unterminated last record), the tail is never decoded: entities, frames,
global properties and the validity flag of the parsed data all equal those of
the base alone. -/
theorem C10_theorem (F : List String) (u t : List Char) (ht : ∀ d ∈ t, d ≠ '\n') :
    (parseAcmi F ((u ++ ['\n']) ++ t)).entities = (parseAcmi F (u ++ ['\n'])).entities ∧
    (parseAcmi F ((u ++ ['\n']) ++ t)).frames = (parseAcmi F (u ++ ['\n'])).frames ∧
    (parseAcmi F ((u ++ ['\n']) ++ t)).globalProperties =
      (parseAcmi F (u ++ ['\n'])).globalProperties ∧
    (parseAcmi F ((u ++ ['\n']) ++ t)).isValid = (parseAcmi F (u ++ ['\n'])).isValid := by
  have hkey : parseAcmi F ((u ++ ['\n']) ++ t) = parseAcmi F (u ++ ['\n']) := by
    unfold parseAcmi parseBufferFrom parseContentCore
    rw [parseHeaderStep_append _ u t ht, physicalLines_append u t ht]
  rw [hkey]
  exact ⟨rfl, rfl, rfl, rfl⟩

/-- C10 -- witness: appending an unterminated `0,Author=b` record changes
nothing in the parse of the terminated base. -/
theorem C10_theorem_witness :
    (parseAcmi [] ((bufTruncBase ++ ['\n']) ++ bufTruncTail)).entities =
      (parseAcmi [] (bufTruncBase ++ ['\n'])).entities ∧
    (parseAcmi [] ((bufTruncBase ++ ['\n']) ++ bufTruncTail)).frames =
      (parseAcmi [] (bufTruncBase ++ ['\n'])).frames ∧
    (parseAcmi [] ((bufTruncBase ++ ['\n']) ++ bufTruncTail)).globalProperties =
      (parseAcmi [] (bufTruncBase ++ ['\n'])).globalProperties ∧
    (parseAcmi [] ((bufTruncBase ++ ['\n']) ++ bufTruncTail)).isValid =
      (parseAcmi [] (bufTruncBase ++ ['\n'])).isValid :=
  C10_theorem [] bufTruncBase bufTruncTail (by decide)
end Acmi
